import Mathlib

set_option maxHeartbeats 1000000
set_option maxRecDepth 4000

/-!
Verification of the laravel2doc extraction-and-synthesis pipeline.

The JavaScript generators (`erd.js`, `uml.js`, the sequence generator, the
API-doc generator and the model-relationship extractor from `laravel.js`) are
embedded shallowly: raw source-unit text is a `String` (a list of characters),
the JavaScript regular expressions used by the extractor are realised as
deterministic character-list matchers (each regex used by the code admits a
deterministic maximal-munch reading, see the comments on each matcher), and
the string-building synthesizers are pure functions producing the same text
the JavaScript code writes to its output files.
-/

/-! ## JS-style character classes and string primitives -/

/-- The character class `\s` of JavaScript regular expressions
(ASCII whitespace plus the Unicode space code points). -/
def isSpaceChar (c : Char) : Bool :=
  c == ' ' || c == '\t' || c == '\n' || c == '\r' || c == '\x0b' || c == '\x0c' ||
  c == '\u00A0' || c == '\u1680' ||
  (('\u2000' ≤ c) && (c ≤ '\u200A')) ||
  c == '\u2028' || c == '\u2029' || c == '\u202F' || c == '\u205F' ||
  c == '\u3000' || c == '\uFEFF'

/-- The character class `\w` of JavaScript regular expressions. -/
def isWordChar (c : Char) : Bool :=
  (('a' ≤ c) && (c ≤ 'z')) || (('A' ≤ c) && (c ≤ 'Z')) ||
  (('0' ≤ c) && (c ≤ '9')) || c == '_'

/-- A single or double quote character (the class `['"]`). -/
def isQuoteChar (c : Char) : Bool :=
  c == '\x27' || c == '\x22'

/-- `listStartsWith pat l` holds when `pat` is a prefix of `l`. -/
def listStartsWith : List Char → List Char → Bool
  | [], _ => true
  | _ :: _, [] => false
  | p :: ps, c :: cs => p == c && listStartsWith ps cs

/-- Substring containment, as `String.prototype.includes`. -/
def listContainsSub (pat : List Char) : List Char → Bool
  | [] => listStartsWith pat []
  | c :: cs => listStartsWith pat (c :: cs) || listContainsSub pat cs

/-- `String.prototype.includes`. -/
def jsIncludes (s sub : String) : Bool := listContainsSub sub.data s.data

/-- `String.prototype.startsWith`. -/
def jsStartsWith (s pat : String) : Bool := listStartsWith pat.data s.data

/-- `String.prototype.endsWith`. -/
def jsEndsWith (s pat : String) : Bool := listStartsWith pat.data.reverse s.data.reverse

/-- ASCII lower-casing of one character, as `toLowerCase` acts on ASCII text. -/
def jsToLowerChar (c : Char) : Char :=
  if ('A' ≤ c) && (c ≤ 'Z') then Char.ofNat (c.toNat + 32) else c

/-- ASCII upper-casing of one character, as `toUpperCase` acts on ASCII text. -/
def jsToUpperChar (c : Char) : Char :=
  if ('a' ≤ c) && (c ≤ 'z') then Char.ofNat (c.toNat - 32) else c

/-- `String.prototype.toLowerCase` (on the ASCII text this pipeline handles). -/
def jsToLower (s : String) : String := ⟨s.data.map jsToLowerChar⟩

/-- `String.prototype.toUpperCase` (on the ASCII text this pipeline handles). -/
def jsToUpper (s : String) : String := ⟨s.data.map jsToUpperChar⟩

/-- `String.prototype.trim`. -/
def jsTrim (s : String) : String :=
  ⟨((s.data.dropWhile isSpaceChar).reverse.dropWhile isSpaceChar).reverse⟩

/-- `String.prototype.replace(pat, "")` with a plain-string pattern:
removes the first occurrence of `pat`. -/
def removeFirstSub (pat : List Char) : List Char → List Char
  | [] => []
  | c :: cs =>
    if listStartsWith pat (c :: cs) then (c :: cs).drop pat.length
    else c :: removeFirstSub pat cs

/-- `String.prototype.split` on a single separator character. -/
def splitOnChar (sep : Char) (l : List Char) : List (List Char) :=
  l.foldr
    (fun c acc =>
      match acc with
      | [] => [[c]]
      | a :: as => if c == sep then [] :: (a :: as) else (c :: a) :: as)
    [[]]

/-- Concatenation of a list of strings (JavaScript `+=` accumulation). -/
def strJoin : List String → String
  | [] => ""
  | s :: rest => s ++ strJoin rest

/-- Mutate the first element satisfying `p` (JavaScript `find` + field update). -/
def updateFirst (p : α → Bool) (f : α → α) : List α → List α
  | [] => []
  | a :: as => if p a then f a :: as else a :: updateFirst p f as

/-- Remove the first occurrence of `x`. -/
def removeFirstElem [DecidableEq α] (x : α) : List α → List α
  | [] => []
  | a :: as => if a = x then as else a :: removeFirstElem x as

/-! ## Deterministic matchers for the extractor's regular expressions

Each of these runs one regex attempt anchored at the head of the input list
and, on success, returns the captures together with the rest of the input
after the whole match — mirroring one step of `matchAll`. -/

/-- Match a literal. -/
def litP : List Char → List Char → Option (List Char)
  | [], cs => some cs
  | _ :: _, [] => none
  | p :: ps, c :: cs => if p == c then litP ps cs else none

/-- Match `\s+`. -/
def wsPlusP (cs : List Char) : Option (List Char) :=
  match cs with
  | [] => none
  | c :: _ => if isSpaceChar c then some (cs.dropWhile isSpaceChar) else none

/-- Match `\w+`, returning the captured word. -/
def wordPlusP (cs : List Char) : Option (List Char × List Char) :=
  let w := cs.takeWhile isWordChar
  if w.isEmpty then none else some (w, cs.dropWhile isWordChar)

/-- Scan for the first position where `f` matches (`String.prototype.match`
without the global flag). -/
def scanFirst (f : List Char → Option α) : Nat → List Char → Option α
  | 0, _ => none
  | fuel + 1, cs =>
    match f cs with
    | some a => some a
    | none =>
      match cs with
      | [] => none
      | _ :: rest => scanFirst f fuel rest

/-- Scan for all non-overlapping matches of `f`, resuming after each match
(`String.prototype.matchAll`). -/
def scanAll (f : List Char → Option (α × List Char)) : Nat → List Char → List α
  | 0, _ => []
  | fuel + 1, cs =>
    match f cs with
    | some (a, rest) => a :: scanAll f fuel rest
    | none =>
      match cs with
      | [] => []
      | _ :: rest => scanAll f fuel rest

/-- One attempt of `/'([^']+)'/` anchored at the head: a single-quoted
nonempty token (quote characters written `\x27`). -/
def sqTokenAt (cs : List Char) : Option (List Char × List Char) :=
  match cs with
  | [] => none
  | c :: rest =>
    if c == '\x27' then
      let tok := rest.takeWhile (fun d => !(d == '\x27'))
      match rest.dropWhile (fun d => !(d == '\x27')) with
      | _ :: r2 => if tok.isEmpty then none else some (tok, r2)
      | [] => none
    else none

/-- One attempt of `/['"]([^'"]+)['"]/` anchored at the head: a quoted
nonempty token where the two quote characters match independently. -/
def qTokenAt (cs : List Char) : Option (List Char × List Char) :=
  match cs with
  | [] => none
  | c :: rest =>
    if isQuoteChar c then
      let tok := rest.takeWhile (fun d => !(isQuoteChar d))
      match rest.dropWhile (fun d => !(isQuoteChar d)) with
      | _ :: r2 => if tok.isEmpty then none else some (tok, r2)
      | [] => none
    else none

/-- Anchored attempt of `/protected\s+\$fillable\s*=\s*\[([\s\S]*?)\]/`:
the lazy capture runs to the first `]`. -/
def fillableAt (cs : List Char) : Option (List Char) := do
  let r1 ← litP ("protected".data) cs
  let r2 ← wsPlusP r1
  let r3 ← litP ("$fillable".data) r2
  let r4 := r3.dropWhile isSpaceChar
  let r5 ← litP ("=".data) r4
  let r6 := r5.dropWhile isSpaceChar
  let r7 ← litP ("[".data) r6
  match r7.dropWhile (fun c => !(c == ']')) with
  | _ :: _ => some (r7.takeWhile (fun c => !(c == ']')))
  | [] => none

/-- First match of the fillable-list regex over a unit's text. -/
def findFillableContent (content : String) : Option (List Char) :=
  scanFirst fillableAt (content.data.length + 1) content.data

/-- The fillable attribute names `erd.js` extracts: the single-quoted tokens
inside the captured fillable list (`match(/'([^']+)'/g)` with quotes then
stripped). -/
def fillableTokensErd (content : String) : List String :=
  match findFillableContent content with
  | none => []
  | some cap => (scanAll sqTokenAt (cap.length + 1) cap).map (fun t => String.mk t)

/-- Anchored attempt of the cast-map regex with square brackets:
`/protected\s+\$casts\s*=\s*\[([\s\S]*?)\]/`. -/
def castsBracketAt (cs : List Char) : Option (List Char) := do
  let r1 ← litP ("protected".data) cs
  let r2 ← wsPlusP r1
  let r3 ← litP ("$casts".data) r2
  let r4 := r3.dropWhile isSpaceChar
  let r5 ← litP ("=".data) r4
  let r6 := r5.dropWhile isSpaceChar
  let r7 ← litP ("[".data) r6
  match r7.dropWhile (fun c => !(c == ']')) with
  | _ :: _ => some (r7.takeWhile (fun c => !(c == ']')))
  | [] => none

/-- Anchored attempt of the cast-map regex with braces:
`/protected\s+\$casts\s*=\s*\{([\s\S]*?)\}/`. -/
def castsBraceAt (cs : List Char) : Option (List Char) := do
  let r1 ← litP ("protected".data) cs
  let r2 ← wsPlusP r1
  let r3 ← litP ("$casts".data) r2
  let r4 := r3.dropWhile isSpaceChar
  let r5 ← litP ("=".data) r4
  let r6 := r5.dropWhile isSpaceChar
  let r7 ← litP ("\x7b".data) r6
  match r7.dropWhile (fun c => !(c == '\x7d')) with
  | _ :: _ => some (r7.takeWhile (fun c => !(c == '\x7d')))
  | [] => none

/-- `erd.js` tries the bracket form over the whole text first, then the
brace form (two separate `String.prototype.match` calls). -/
def erdCastsContent (content : String) : Option (List Char) :=
  (scanFirst castsBracketAt (content.data.length + 1) content.data).orElse
    (fun _ => scanFirst castsBraceAt (content.data.length + 1) content.data)

/-- Anchored attempt of one cast entry `/'([^']+)'\s*=>\s*'([^']+)'/`. -/
def castEntryAt (cs : List Char) : Option ((String × String) × List Char) := do
  let (k, r1) ← sqTokenAt cs
  let r2 := r1.dropWhile isSpaceChar
  let r3 ← litP ("=>".data) r2
  let r4 := r3.dropWhile isSpaceChar
  let (v, r5) ← sqTokenAt r4
  some ((String.mk k, String.mk v), r5)

/-- All cast entries `erd.js` extracts from a unit's text. -/
def castEntriesErd (content : String) : List (String × String) :=
  match erdCastsContent content with
  | none => []
  | some cap => scanAll castEntryAt (cap.length + 1) cap

/-- Anchored attempt of `/protected\s+\$primaryKey\s*=\s*'([^']+)'/`. -/
def primaryKeyAt (cs : List Char) : Option String := do
  let r1 ← litP ("protected".data) cs
  let r2 ← wsPlusP r1
  let r3 ← litP ("$primaryKey".data) r2
  let r4 := r3.dropWhile isSpaceChar
  let r5 ← litP ("=".data) r4
  let r6 := r5.dropWhile isSpaceChar
  let (tok, _) ← sqTokenAt r6
  some (String.mk tok)

/-- The explicit primary-key override of a model unit, when declared. -/
def erdPrimaryKeyOf (content : String) : Option String :=
  scanFirst primaryKeyAt (content.data.length + 1) content.data

/-- Anchored attempt of
`/belongsTo\(\s*([^,)]+)(?:,\s*['"]([^'"]+)['"])?\s*\)/`: first argument
capture plus the optional quoted second argument.  The first capture is the
maximal run of non-`,)` characters (it absorbs the `\s*` on both sides,
which is what the greedy regex engine produces). -/
def belongsToAt (cs : List Char) : Option ((String × Option String) × List Char) := do
  let r1 ← litP ("belongsTo(".data) cs
  let r2 := r1.dropWhile isSpaceChar
  let t := r2.takeWhile (fun c => !(c == ',' || c == ')'))
  if t.isEmpty then none else
  match r2.dropWhile (fun c => !(c == ',' || c == ')')) with
  | [] => none
  | c :: r4 =>
    if c == ')' then some ((String.mk t, none), r4)
    else
      let r5 := r4.dropWhile isSpaceChar
      match r5 with
      | [] => none
      | q :: r6 =>
        if isQuoteChar q then
          let fk := r6.takeWhile (fun d => !(isQuoteChar d))
          if fk.isEmpty then none else
          match r6.dropWhile (fun d => !(isQuoteChar d)) with
          | [] => none
          | _ :: r8 =>
            match r8.dropWhile isSpaceChar with
            | [] => none
            | c2 :: r10 =>
              if c2 == ')' then some ((String.mk t, some (String.mk fk)), r10)
              else none
        else none

/-- Anchored attempt of `/['"]([^'"]+_id)['"]/`: a quoted token whose body
ends in `_id` with a nonempty stem. -/
def quotedIdAt (cs : List Char) : Option (String × List Char) := do
  let (tok, rest) ← qTokenAt cs
  if listStartsWith ("di_".data) tok.reverse && tok.length > 3 then
    some (String.mk tok, rest)
  else none

/-- Anchored attempt of `/public\s+function\s+(\w+)\s*\(([^)]*)\)/`:
method name and raw parameter-list text. -/
def methodMatchAt (cs : List Char) : Option ((String × String) × List Char) := do
  let r1 ← litP ("public".data) cs
  let r2 ← wsPlusP r1
  let r3 ← litP ("function".data) r2
  let r4 ← wsPlusP r3
  let (nm, r5) ← wordPlusP r4
  let r6 := r5.dropWhile isSpaceChar
  let r7 ← litP ("(".data) r6
  let ps := r7.takeWhile (fun c => !(c == ')'))
  match r7.dropWhile (fun c => !(c == ')')) with
  | _ :: r9 => some ((String.mk nm, String.mk ps), r9)
  | [] => none

/-- All public-method matches of a unit's text. -/
def methodMatchesOf (content : String) : List (String × String) :=
  scanAll methodMatchAt (content.data.length + 1) content.data

/-- Anchored attempt of `/protected\s+\$table\s*=\s*['"]([^'"]+)['"]/`. -/
def tableAt (cs : List Char) : Option String := do
  let r1 ← litP ("protected".data) cs
  let r2 ← wsPlusP r1
  let r3 ← litP ("$table".data) r2
  let r4 := r3.dropWhile isSpaceChar
  let r5 ← litP ("=".data) r4
  let r6 := r5.dropWhile isSpaceChar
  let (tok, _) ← qTokenAt r6
  some (String.mk tok)

/-- The declared table name of a model unit, when present (`uml.js`). -/
def umlTableName (content : String) : Option String :=
  scanFirst tableAt (content.data.length + 1) content.data

/-- Anchored attempt of the `uml.js` cast-map alternation
`/protected\s+\$casts\s*=\s*\[([\s\S]*?)\]|protected\s+\$casts\s*=\s*\{([\s\S]*?)\}/`:
at one position the bracket alternative is tried before the brace one. -/
def umlCastsAt (cs : List Char) : Option (List Char) :=
  (castsBracketAt cs).orElse (fun _ => castsBraceAt cs)

/-- First (leftmost) match of the `uml.js` cast-map alternation. -/
def umlCastsContent (content : String) : Option (List Char) :=
  scanFirst umlCastsAt (content.data.length + 1) content.data

/-- Anchored attempt of the dynamic regex
`` `['"]${property}['"]\s*=>\s*['"]([^'"]+)['"]` `` built by
`extractDataTypeFromCasts`. -/
def castTypeForPropAt (prop : String) (cs : List Char) : Option String := do
  match cs with
  | [] => none
  | q :: r1 =>
    if isQuoteChar q then do
      let r2 ← litP prop.data r1
      match r2 with
      | [] => none
      | q2 :: r3 =>
        if isQuoteChar q2 then do
          let r4 := r3.dropWhile isSpaceChar
          let r5 ← litP ("=>".data) r4
          let r6 := r5.dropWhile isSpaceChar
          let (tok, _) ← qTokenAt r6
          some (String.mk tok)
        else none
    else none

/-- `extractDataTypeFromCasts` of `uml.js`: the declared cast type of a
property, or `""`. -/
def extractDataTypeFromCasts (prop : String) (castsContent : Option (List Char)) : String :=
  match castsContent with
  | none => ""
  | some cc => (scanFirst (castTypeForPropAt prop) (cc.length + 1) cc).getD ""

/-- Anchored attempt of `/namespace\s+([^;]+);/`. -/
def namespaceAt (cs : List Char) : Option String := do
  let r1 ← litP ("namespace".data) cs
  let r2 ← wsPlusP r1
  let cap := r2.takeWhile (fun c => !(c == ';'))
  if cap.isEmpty then none else
  match r2.dropWhile (fun c => !(c == ';')) with
  | _ :: _ => some (String.mk cap)
  | [] => none

/-- `extractNamespace` of `uml.js`. -/
def extractNamespace (content : String) : String :=
  (scanFirst namespaceAt (content.data.length + 1) content.data).getD ""

/-! ## Data model -/

/-- One source unit handed over by the scanner: a model, controller or
route-file with its name and raw text. -/
structure SourceUnit where
  name : String
  content : String
deriving DecidableEq

/-- A foreign-key fact collected by `extractForeignKeys`. -/
structure ForeignKey where
  name : String
  references : String
deriving DecidableEq

/-- An attribute row produced by `extractModelAttributes`. -/
structure AttrInfo where
  name : String
  type : String
  isPrimaryKey : Bool
  isForeignKey : Bool
  references : Option String
deriving DecidableEq

/-- A relationship fact produced by `parseModelRelationships`. -/
structure RelFact where
  sourceModel : String
  relationshipType : String
  relationshipName : String
  targetModel : String
deriving DecidableEq

/-- The assembled project model (the slice the verified synthesizers read). -/
structure ProjectInfo where
  name : String
  models : List SourceUnit
  controllers : List SourceUnit
  relationships : List RelFact
deriving DecidableEq

/-! ## ERD synthesizer (`erd.js`) -/

/-- `inferAttributeType`: the heuristic type fallback, translated branch by
branch from the source's if-chain. -/
def inferAttributeType (attrName : String) : String :=
  if attrName == "id" || jsEndsWith attrName ("_id") then "int"
  else if jsIncludes attrName ("email") then "string"
  else if jsIncludes attrName ("password") then "string"
  else if jsIncludes attrName ("date") || jsIncludes attrName ("time") then "datetime"
  else if jsIncludes attrName ("is_") || jsIncludes attrName ("has_") then "boolean"
  else if jsIncludes attrName ("count") || jsIncludes attrName ("amount") ||
          jsIncludes attrName ("price") || jsIncludes attrName ("total") then "float"
  else if jsIncludes attrName ("uuid") then "string"
  else "string"

/-- The fixed cast-keyword table of `mapCastTypeToErdType`. -/
def castTypeMap : List (String × String) :=
  [("integer", "int"), ("int", "int"),
   ("float", "float"), ("double", "float"), ("decimal", "float"),
   ("string", "string"),
   ("boolean", "boolean"), ("bool", "boolean"),
   ("object", "json"), ("array", "json"), ("json", "json"),
   ("date", "datetime"), ("datetime", "datetime"), ("timestamp", "datetime"),
   ("uuid", "string")]

/-- `mapCastTypeToErdType`: bracket lookup of the lower-cased keyword on the
`typeMap` object literal, with `|| "string"` as the default.  A JavaScript
bracket lookup on an object literal also reaches the inherited members of
`Object.prototype`; after `toLowerCase()` the key can only ever equal the
two all-lowercase member names `constructor` and `__proto__`, and both
inherited values are truthy, so the `||` default does not replace them.
Every consumer of this result interpolates it into a template literal, so
the embedding records the string those two inherited values coerce to
there (`String(Object)` and `String(Object.prototype)`). -/
def mapCastTypeToErdType (castType : String) : String :=
  match castTypeMap.find? (fun kv => kv.1 == jsToLower castType) with
  | some kv => kv.2
  | none =>
    if jsToLower castType == "constructor" then
      "function Object() \x7b [native code] \x7d"
    else if jsToLower castType == "__proto__" then "[object Object]"
    else "string"

/-- The `.*[\\\/]` step of `cleanModelName`: keep the segment after the last
backslash or slash. -/
def afterLastSep (l : List Char) : List Char :=
  l.foldl (fun acc c => if c == '\\' || c == '/' then [] else acc ++ [c]) []

/-- The `::class$` suffix strip of `cleanModelName`. -/
def stripClassSuffix (l : List Char) : List Char :=
  if listStartsWith ("::class".data.reverse) l.reverse then
    l.take (l.length - ("::class".data).length)
  else l

/-- The `^App\Models\` prefix strip of `cleanModelName`. -/
def stripAppModels (l : List Char) : List Char :=
  if listStartsWith ("App\\Models\\".data) l then l.drop (("App\\Models\\".data).length)
  else l

/-- The `/^['"]+|['"]+$/` strip of `cleanModelName`. -/
def stripQuoteEnds (l : List Char) : List Char :=
  ((l.dropWhile isQuoteChar).reverse.dropWhile isQuoteChar).reverse

/-- `cleanModelName` of `erd.js`: namespace, `::class` suffix, `App\Models\`
prefix and quote strips followed by lower-casing. -/
def cleanModelName (s : String) : String :=
  jsToLower ⟨stripQuoteEnds (stripAppModels (stripClassSuffix (afterLastSep s.data)))⟩

/-- The `relationshipMap` symbol table of `getRelationshipDetails`. -/
def relationshipSymbolMap : List (String × String) :=
  [("hasOne", "||--o|"), ("hasMany", "||--|\x7b"), ("belongsTo", "\x7d|--||"),
   ("belongsToMany", "\x7d|--|\x7b"), ("morphTo", "\x7do--|\x7b"),
   ("morphOne", "||--o|"), ("morphMany", "||--o\x7b"),
   ("hasManyThrough", "||..o\x7b"), ("hasOneThrough", "||..o|")]

/-- `getRelationshipDetails(...).symbol` with the generic default. -/
def getRelationshipSymbol (t : String) : String :=
  ((relationshipSymbolMap.find? (fun kv => kv.1 == t)).map (fun kv => kv.2)).getD "||--o|"

/-- All `belongsTo(...)` matches of a unit's text. -/
def belongsToMatchesOf (content : String) : List (String × Option String) :=
  scanAll belongsToAt (content.data.length + 1) content.data

/-- All quoted `*_id` literal matches of a unit's text. -/
def quotedIdMatchesOf (content : String) : List String :=
  scanAll quotedIdAt (content.data.length + 1) content.data

/-- `extractForeignKeys`: belongsTo-derived keys (pushed unconditionally)
followed by quoted `*_id` literals (pushed when the name is not present). -/
def extractForeignKeys (m : SourceUnit) : List ForeignKey :=
  let afterBelongsTo := (belongsToMatchesOf m.content).foldl
    (fun acc pr =>
      let relatedModel := cleanModelName pr.1
      let fkName := pr.2.getD (relatedModel ++ "_id")
      acc ++ [⟨fkName, relatedModel⟩])
    []
  (quotedIdMatchesOf m.content).foldl
    (fun acc fkName =>
      if acc.any (fun fk => fk.name == fkName) then acc
      else acc ++ [⟨fkName, ⟨removeFirstSub ("_id".data) fkName.data⟩⟩])
    afterBelongsTo

/-- The base attribute built for one fillable entry. -/
def fillableAttr (n : String) : AttrInfo :=
  ⟨n, inferAttributeType n, n == "id", jsEndsWith n ("_id"),
   if jsEndsWith n ("_id") then some ⟨removeFirstSub ("_id".data) n.data⟩ else none⟩

/-- The fillable phase of `extractModelAttributes`. -/
def applyFillable (toks : List String) : List AttrInfo := toks.map fillableAttr

/-- One cast entry of `extractModelAttributes`: update the first existing
attribute of that name, else push a fresh one. -/
def applyCastEntry (l : List AttrInfo) (e : String × String) : List AttrInfo :=
  if l.any (fun a => a.name == e.1) then
    updateFirst (fun a => a.name == e.1)
      (fun a => { a with type := mapCastTypeToErdType e.2 }) l
  else
    l ++ [⟨e.1, mapCastTypeToErdType e.2, e.1 == "id", jsEndsWith e.1 ("_id"),
           if jsEndsWith e.1 ("_id") then some ⟨removeFirstSub ("_id".data) e.1.data⟩
           else none⟩]

/-- The casts phase of `extractModelAttributes`. -/
def applyCasts (l : List AttrInfo) (entries : List (String × String)) : List AttrInfo :=
  entries.foldl applyCastEntry l

/-- The explicit-primary-key phase of `extractModelAttributes`. -/
def applyPrimaryKey (l : List AttrInfo) : Option String → List AttrInfo
  | none => l
  | some pk =>
    let l1 :=
      if l.any (fun a => a.name == pk) then
        updateFirst (fun a => a.name == pk) (fun a => { a with isPrimaryKey := true }) l
      else l ++ [⟨pk, "int", true, false, none⟩]
    if (l1.any (fun a => a.name == "id" && a.isPrimaryKey)) && pk != "id" then
      updateFirst (fun a => a.name == "id" && a.isPrimaryKey)
        (fun a => { a with isPrimaryKey := false }) l1
    else l1

/-- One collected foreign key merged into the attribute list. -/
def applyFk (l : List AttrInfo) (fk : ForeignKey) : List AttrInfo :=
  if l.any (fun a => a.name == fk.name) then
    updateFirst (fun a => a.name == fk.name)
      (fun a => { a with isForeignKey := true, references := some fk.references }) l
  else l ++ [⟨fk.name, "int", false, true, some fk.references⟩]

/-- `extractModelAttributes` of `erd.js`: fillable entries, then casts,
then the primary-key override, then collected foreign keys. -/
def extractModelAttributes (m : SourceUnit) (fks : List ForeignKey) : List AttrInfo :=
  fks.foldl applyFk
    (applyPrimaryKey
      (applyCasts (applyFillable (fillableTokensErd m.content)) (castEntriesErd m.content))
      (erdPrimaryKeyOf m.content))

/-- The attribute rows of one entity block: the default `int id PK` row when
no extracted attribute is flagged primary, followed by all extracted rows. -/
def erdRowAttrs (m : SourceUnit) (fks : List ForeignKey) : List AttrInfo :=
  (if (extractModelAttributes m fks).any (fun a => a.isPrimaryKey) then [] else
    [⟨"id", "int", true, false, none⟩]) ++ extractModelAttributes m fks

/-- Rendering of one attribute row (key annotation and comment as in the
source's template literal). -/
def renderAttrRow (a : AttrInfo) : String :=
  "    " ++ a.type ++ " " ++ a.name ++
  (if a.isPrimaryKey then " PK \x22Primary key\x22"
   else if a.isForeignKey then " FK \x22References " ++ a.references.getD "null" ++ "\x22"
   else "") ++ "\n"

/-- The `created_at`/`updated_at` lines: emitted unless the trait check
fails (`use HasFactory` or `use Timestamps` present, or no explicit
`public $timestamps = false`). -/
def erdTimestampLines (content : String) : String :=
  if jsIncludes content ("use HasFactory") || jsIncludes content ("use Timestamps") ||
     !(jsIncludes content ("public $timestamps = false")) then
    "    datetime created_at\n    datetime updated_at\n"
  else ""

/-- The `deleted_at` line, emitted when the unit uses `SoftDeletes`. -/
def erdSoftDeleteLine (content : String) : String :=
  if jsIncludes content ("use SoftDeletes") then "    datetime deleted_at\n" else ""

/-- One entity block of the ERD text; empty when no attributes were
extracted (the source's `attributes.length > 0` guard). -/
def erdEntityBlock (m : SourceUnit) (fks : List ForeignKey) : String :=
  if (extractModelAttributes m fks).isEmpty then ""
  else
    "  " ++ jsToLower m.name ++ " \x7b\n" ++
    strJoin ((erdRowAttrs m fks).map renderAttrRow) ++
    erdTimestampLines m.content ++
    erdSoftDeleteLine m.content ++
    "  \x7d\n"

/-- The first pass of `generateERD`: deduplicated lower-cased model names
plus the per-model foreign-key map. -/
def fkPassAux : List SourceUnit → List String → List (String × List ForeignKey) →
    (List String × List (String × List ForeignKey))
  | [], proc, alist => (proc, alist)
  | m :: rest, proc, alist =>
    let ln := jsToLower m.name
    if proc.contains ln then fkPassAux rest proc alist
    else fkPassAux rest (proc ++ [ln]) (alist ++ [(ln, extractForeignKeys m)])

/-- First pass of `generateERD` over the model list. -/
def fkPass (models : List SourceUnit) : List String × List (String × List ForeignKey) :=
  fkPassAux models [] []

/-- Lookup in the foreign-key map (`foreignKeys.get(modelName)` with the
empty default of an absent key). -/
def fksFor (alist : List (String × List ForeignKey)) (n : String) : List ForeignKey :=
  ((alist.find? (fun kv => kv.1 == n)).map (fun kv => kv.2)).getD []

/-- One relation line of the ERD text, as the source's template literal. -/
def erdRelLine (r : RelFact) : String :=
  "  " ++ cleanModelName r.sourceModel ++ " " ++
  getRelationshipSymbol r.relationshipType ++ " " ++
  cleanModelName r.targetModel ++ " : \x22" ++ r.relationshipName ++ "\x22\n"

/-- The relation lines of the ERD text: a relationship is emitted exactly
when both its cleaned source and target are processed model names. -/
def erdRelLines (processed : List String) (rels : List RelFact) : List String :=
  rels.filterMap (fun r =>
    if processed.contains (cleanModelName r.sourceModel) &&
       processed.contains (cleanModelName r.targetModel) then
      some (erdRelLine r)
    else none)

/-- The full `mermaidContent` text built by `generateERD`. -/
def generateERDContent (p : ProjectInfo) : String :=
  let pass := fkPass p.models
  "erDiagram\n" ++
  strJoin (p.models.map (fun m => erdEntityBlock m (fksFor pass.2 (jsToLower m.name)))) ++
  strJoin (erdRelLines pass.1 p.relationships)

/-! ## UML synthesizer (`uml.js`) -/

/-- The seven relationship-builder names the UML method filter checks. -/
def relBuilderKinds : List String :=
  ["hasOne", "hasMany", "belongsTo", "belongsToMany", "morphTo", "morphMany", "morphOne"]

/-- The skip test of `generateModelData`: a method is dropped when some
relationship-builder call occurs anywhere in the unit's text and the text
`function <name>` occurs anywhere in the unit's text. -/
def umlSkipMethod (content : String) (methodName : String) : Bool :=
  relBuilderKinds.any (fun rel =>
    jsIncludes content ("this->" ++ rel) && jsIncludes content ("function " ++ methodName))

/-- The method list of one processed model (`generateModelData`). -/
def generateModelMethods (m : SourceUnit) : List (String × String) :=
  (methodMatchesOf m.content).filterMap (fun pr =>
    if umlSkipMethod m.content pr.1 then none else some (pr.1, jsTrim pr.2))

/-- The fillable property names of `generateModelData`: the captured list
split on commas, trimmed, stripped of quotes, empties dropped. -/
def umlFillableProps (content : String) : List String :=
  match findFillableContent content with
  | none => []
  | some cap =>
    ((splitOnChar ',' cap).map
        (fun item => String.mk ((jsTrim ⟨item⟩).data.filter (fun c => !(isQuoteChar c))))).filter
      (fun s => s.data.length > 0)

/-- One processed model of the UML diagram data. -/
structure ProcessedModel where
  name : String
  tableName : Option String
  namespaceName : String
  properties : List (String × String)
  methods : List (String × String)
deriving DecidableEq

/-- `generateModelData` of `uml.js`. -/
def generateModelData (models : List SourceUnit) : List ProcessedModel :=
  models.map (fun m =>
    let cc := umlCastsContent m.content
    { name := m.name
      tableName := umlTableName m.content
      namespaceName := extractNamespace m.content
      properties := (umlFillableProps m.content).map
        (fun p => (p, extractDataTypeFromCasts p cc))
      methods := generateModelMethods m })

/-- One processed controller or service of the UML diagram data. -/
structure ProcessedController where
  name : String
  namespaceName : String
  methods : List (String × String)
deriving DecidableEq

/-- `generateControllerData` (also the shape of `generateServiceData`). -/
def generateControllerData (controllers : List SourceUnit) : List ProcessedController :=
  controllers.map (fun c =>
    { name := c.name
      namespaceName := extractNamespace c.content
      methods := (methodMatchesOf c.content).map (fun pr => (pr.1, jsTrim pr.2)) })

/-- The diagram data handed to `generateMermaidDiagram`. -/
structure DiagramData where
  models : List ProcessedModel
  controllers : List ProcessedController
  services : List ProcessedController
  relationships : List RelFact
deriving DecidableEq

/-- One model class block of the UML class diagram. -/
def umlClassBlock (pm : ProcessedModel) : String :=
  "  class " ++ pm.name ++ " \x7b\n" ++
  (match pm.tableName with
   | some t => "    <<Table: " ++ t ++ ">>\n"
   | none => "") ++
  strJoin (pm.properties.map (fun pr =>
    "    +" ++ pr.1 ++ (if pr.2 == "" then "" else ": " ++ pr.2) ++ "\n")) ++
  strJoin (pm.methods.map (fun me => "    +" ++ me.1 ++ "(" ++ me.2 ++ ")\n")) ++
  "  \x7d\n"

/-- One controller/service class block of the UML class diagram. -/
def umlStereoBlock (stereo : String) (pc : ProcessedController) : String :=
  "  class " ++ pc.name ++ " \x7b\n" ++
  "    <<" ++ stereo ++ ">>\n" ++
  strJoin (pc.methods.map (fun me => "    +" ++ me.1 ++ "(" ++ me.2 ++ ")\n")) ++
  "  \x7d\n"

/-- The 4-way arrow switch of the UML relationship section. -/
def umlArrow (t : String) : String :=
  if t == "hasOne" then "-->"
  else if t == "hasMany" then "--*"
  else if t == "belongsTo" then "<--"
  else if t == "belongsToMany" then "<--*"
  else "-->"

/-- One relationship edge line of the UML class diagram: emitted for every
relationship in the collection, with only the `::class` suffix stripped. -/
def umlEdgeLine (r : RelFact) : String :=
  "  " ++ String.mk (stripClassSuffix r.sourceModel.data) ++ " " ++
  umlArrow r.relationshipType ++ " " ++
  String.mk (stripClassSuffix r.targetModel.data) ++ " : " ++
  jsToLower r.relationshipName ++ "\n"

/-- `generateMermaidDiagram` of `uml.js` (the pipeline always calls it with
a null directory filter, so the filter branch never fires and is omitted). -/
def generateMermaidDiagram (dd : DiagramData) (entityTypes : List String) : String :=
  "classDiagram\n" ++
  (if entityTypes.contains "models" then strJoin (dd.models.map umlClassBlock) else "") ++
  (if entityTypes.contains "controllers" then
    strJoin (dd.controllers.map (umlStereoBlock "Controller")) else "") ++
  (if entityTypes.contains "services" then
    strJoin (dd.services.map (umlStereoBlock "Service")) else "") ++
  (if entityTypes.contains "models" then
    strJoin (dd.relationships.map umlEdgeLine) else "")

/-- The diagram data `generateUML` assembles from the project model
(no services collection is supplied by the pipeline). -/
def diagramDataOf (p : ProjectInfo) : DiagramData :=
  ⟨generateModelData p.models, generateControllerData p.controllers, [], p.relationships⟩

/-- The models-only UML diagram text (`models_diagram.md`). -/
def generateUMLModelsDiagram (p : ProjectInfo) : String :=
  generateMermaidDiagram (diagramDataOf p) ["models"]

/-! ## Sequence synthesizer (sequence generator) -/

/-- The lifecycle hooks the sequence generator skips. -/
def sequenceSkipList : List String := ["__construct", "middleware", "authorize"]

/-- The name-based classification of a controller action into one of the six
sequence patterns.  In the source this block reads only `methodName`; the
action's body text plays no part in the classification. -/
def classifySequenceType (methodName : String) : String :=
  if methodName == "index" || methodName == "all" || methodName == "list" then "list"
  else if methodName == "show" || methodName == "view" || methodName == "get" then "show"
  else if methodName == "store" || methodName == "create" || methodName == "add" then "create"
  else if methodName == "update" || methodName == "edit" then "update"
  else if methodName == "destroy" || methodName == "delete" || methodName == "remove" then "delete"
  else "generic"

/-! ## API Doc synthesizer (route extraction) -/

/-- An extracted endpoint record. -/
structure Endpoint where
  method : String
  path : String
  handler : String
  routeName : Option String
  description : String
  routeFile : String
  group : Option String
deriving DecidableEq

/-- `generateRouteDescription`: fixed phrase from method and trailing path
segment. -/
def generateRouteDescription (method p : String) : String :=
  let parts := (splitOnChar '/' p.data).filter (fun seg => seg.length > 0)
  let resource := (parts.getLast?.map String.mk).getD "resource"
  if method == "GET" then
    if jsIncludes p ("/\x7b") || jsIncludes p ("/:") then "Retrieve a specific " ++ resource
    else "List " ++ resource
  else if method == "POST" then "Create a new " ++ resource
  else if method == "PUT" || method == "PATCH" then "Update a specific " ++ resource
  else if method == "DELETE" then "Delete a specific " ++ resource
  else method ++ " " ++ p

/-- The capture groups of one match of the direct-verb route regex of
`extractStandardRoutes`. -/
structure StdRouteMatch where
  verb : String
  path : String
  handlerArr : Option String
  handlerStr : Option String
  routeName : Option String
deriving DecidableEq

/-- The endpoint `extractStandardRoutes` pushes for one match: the declared
path string is recorded verbatim. -/
def stdEndpointOf (rfName : String) (m : StdRouteMatch) : Endpoint :=
  { method := jsToUpper m.verb
    path := m.path
    handler := (m.handlerArr.orElse (fun _ => m.handlerStr)).getD "Closure"
    routeName := m.routeName
    description := generateRouteDescription (jsToUpper m.verb) m.path
    routeFile := rfName
    group := none }

/-- `extractStandardRoutes` over the matches of one route file. -/
def extractStandardRoutes (rfName : String) (ms : List StdRouteMatch) : List Endpoint :=
  ms.map (stdEndpointOf rfName)

/-- One conventional row of the resource-route table. -/
structure ResourceRow where
  method : String
  suffix : String
  action : String
  description : String

/-- The seven conventional resource routes of `extractResourceRoutes`. -/
def resourceRouteTable (p singular : String) : List ResourceRow :=
  [⟨"GET", "", "index", "List all " ++ p⟩,
   ⟨"GET", "/create", "create", "Show form to create a new " ++ singular⟩,
   ⟨"POST", "", "store", "Store a new " ++ singular⟩,
   ⟨"GET", "/\x7bid\x7d", "show", "Show a specific " ++ singular⟩,
   ⟨"GET", "/\x7bid\x7d/edit", "edit", "Show form to edit " ++ singular⟩,
   ⟨"PUT/PATCH", "/\x7bid\x7d", "update", "Update a specific " ++ singular⟩,
   ⟨"DELETE", "/\x7bid\x7d", "destroy", "Delete a specific " ++ singular⟩]

/-- The five conventional API resource routes of `extractApiResourceRoutes`. -/
def apiResourceRouteTable (p singular : String) : List ResourceRow :=
  [⟨"GET", "", "index", "List all " ++ p⟩,
   ⟨"POST", "", "store", "Store a new " ++ singular⟩,
   ⟨"GET", "/\x7bid\x7d", "show", "Show a specific " ++ singular⟩,
   ⟨"PUT/PATCH", "/\x7bid\x7d", "update", "Update a specific " ++ singular⟩,
   ⟨"DELETE", "/\x7bid\x7d", "destroy", "Delete a specific " ++ singular⟩]

/-- The `only`/`except` filter of the resource expansion loops. -/
def resourceRowSkipped (only exceptL : Option (List String)) (action : String) : Bool :=
  (match only with
   | some l => !(l.contains action)
   | none => false) ||
  (match exceptL with
   | some l => l.contains action
   | none => false)

/-- `extractResourceRoutes`: one parsed declaration expanded through the
seven-row table, filtered by the `only`/`except` lists. -/
def expandResource (rfName p handler : String) (only exceptL : Option (List String)) :
    List Endpoint :=
  let singular := if jsEndsWith p ("s") then String.mk (p.data.take (p.data.length - 1)) else p
  (resourceRouteTable p singular).filterMap (fun r =>
    if resourceRowSkipped only exceptL r.action then none
    else some
      { method := r.method
        path := "/" ++ p ++ r.suffix
        handler := handler ++ "@" ++ r.action
        routeName := none
        description := r.description
        routeFile := rfName
        group := some "Resource" })

/-- `extractApiResourceRoutes`: the five-row API table, same filter. -/
def expandApiResource (rfName p handler : String) (only exceptL : Option (List String)) :
    List Endpoint :=
  let singular := if jsEndsWith p ("s") then String.mk (p.data.take (p.data.length - 1)) else p
  (apiResourceRouteTable p singular).filterMap (fun r =>
    if resourceRowSkipped only exceptL r.action then none
    else some
      { method := r.method
        path := "/" ++ p ++ r.suffix
        handler := handler ++ "@" ++ r.action
        routeName := none
        description := r.description
        routeFile := rfName
        group := some "API Resource" })

/-- The group/prefix tagging of one endpoint (`extractRouteGroups`): each
matched group prefix in turn relabels the endpoint when it belongs to the
same route file and its path starts with `/` plus the prefix. -/
def tagEndpoint (pfxs : List String) (rfName : String) (e : Endpoint) : Endpoint :=
  pfxs.foldl
    (fun e pfx =>
      if e.routeFile == rfName && jsStartsWith e.path ("/" ++ pfx) then
        { e with group := some pfx }
      else e)
    e

/-- `extractRouteGroups` over an endpoint list. -/
def extractRouteGroups (pfxs : List String) (rfName : String) (es : List Endpoint) :
    List Endpoint :=
  es.map (tagEndpoint pfxs rfName)

/-! ## Model relationship extraction (`parseModelRelationships`) -/

/-- Anchored attempt of one relationship pattern
`/public\s+function\s+(\w+)\s*\(\s*\)\s*\{\s*return\s+\$?this-><kind>\s*\(\s*([^,)]+)/`.
`hasCap` is false for `morphTo`, whose pattern stops at the opening paren
and captures no argument.  The optional `\$?` and the `\s*([^,)]+)` tail are
deterministic up to the one backtracking case where the whole run after the
paren is whitespace (then the capture is the last whitespace character). -/
def matchRelAt (kind : List Char) (hasCap : Bool) (cs : List Char) :
    Option (List Char × List Char × List Char) := do
  let r1 ← litP ("public".data) cs
  let r2 ← wsPlusP r1
  let r3 ← litP ("function".data) r2
  let r4 ← wsPlusP r3
  let (nm, r5) ← wordPlusP r4
  let r6 := r5.dropWhile isSpaceChar
  let r7 ← litP ("(".data) r6
  let r8 := r7.dropWhile isSpaceChar
  let r9 ← litP (")".data) r8
  let r10 := r9.dropWhile isSpaceChar
  let r11 ← litP ("\x7b".data) r10
  let r12 := r11.dropWhile isSpaceChar
  let r13 ← litP ("return".data) r12
  let r14 ← wsPlusP r13
  let r15 := if r14.head? == some '$' then r14.tail else r14
  let r16 ← litP (("this->".data) ++ kind) r15
  let r17 := r16.dropWhile isSpaceChar
  let r18 ← litP ("(".data) r17
  if hasCap then
    let sp := r18.takeWhile isSpaceChar
    let r19 := r18.dropWhile isSpaceChar
    let cap := r19.takeWhile (fun c => !(c == ',' || c == ')'))
    if !cap.isEmpty then some (nm, cap, r19.drop cap.length)
    else if !sp.isEmpty then some (nm, [(sp.getLast?).getD ' '], r19)
    else none
  else some (nm, [], r18)

/-- All matches of one relationship pattern over a unit's text. -/
def scanRel (kind : List Char) (hasCap : Bool) (content : String) :
    List (List Char × List Char) :=
  scanAll
    (fun cs => (matchRelAt kind hasCap cs).map (fun t => ((t.1, t.2.1), t.2.2)))
    (content.data.length + 1) content.data

/-- The seven relationship patterns, in source order, with their capture
flags (`morphTo` has no target capture). -/
def relPatternKinds : List (String × Bool) :=
  [("hasOne", true), ("hasMany", true), ("belongsTo", true), ("belongsToMany", true),
   ("morphTo", false), ("morphMany", true), ("morphOne", true)]

/-- The post-processing of a captured target reference:
`match[2].replace(/['"]/g, "").split("\\").pop()`. -/
def targetOfCapture (cap : List Char) : String :=
  let noQuotes := cap.filter (fun c => !(isQuoteChar c))
  String.mk (noQuotes.foldl (fun acc c => if c == '\\' then [] else acc ++ [c]) [])

/-- The relationship facts extracted from one model unit. -/
def factsForModel (m : SourceUnit) : List RelFact :=
  relPatternKinds.foldr
    (fun kp acc =>
      ((scanRel kp.1.data kp.2 m.content).map (fun pr =>
        { sourceModel := m.name
          relationshipType := kp.1
          relationshipName := String.mk pr.1
          targetModel := if kp.2 then targetOfCapture pr.2 else "Unknown" })) ++ acc)
    []

/-- `parseModelRelationships` of `laravel.js`. -/
def parseModelRelationships (models : List SourceUnit) : List RelFact :=
  models.foldr (fun m acc => factsForModel m ++ acc) []

/-- The structural shape that one anchored relationship-pattern match
certifies about the model text (claim C10): somewhere in the text there is
`public` whitespace `function` whitespace, the captured method name, an
empty parameter list `( )` holding only whitespace, an opening brace
followed (up to whitespace) immediately by `return`, an optional `$`, the
builder call `this-><kind>` and its opening paren.  A method with declared
parameters (a non-space character between the parens) or with any
statement before the `return` cannot produce this shape. -/
def RelAccessorShape (kind content nm : List Char) : Prop :=
  ∃ pre w1 w2 w3 w4 w5 w6 w7 d w8 tail,
    content = pre ++ ("public".data ++ (w1 ++ ("function".data ++ (w2 ++ (nm ++
      (w3 ++ ("(".data ++ (w4 ++ (")".data ++ (w5 ++ ("\x7b".data ++ (w6 ++
      ("return".data ++ (w7 ++ (d ++ ("this->".data ++ (kind ++ (w8 ++
      ("(".data ++ tail))))))))))))))))))) ∧
    w1 ≠ [] ∧ (∀ c ∈ w1, isSpaceChar c = true) ∧
    w2 ≠ [] ∧ (∀ c ∈ w2, isSpaceChar c = true) ∧
    nm ≠ [] ∧ (∀ c ∈ nm, isWordChar c = true) ∧
    (∀ c ∈ w3, isSpaceChar c = true) ∧
    (∀ c ∈ w4, isSpaceChar c = true) ∧
    (∀ c ∈ w5, isSpaceChar c = true) ∧
    (∀ c ∈ w6, isSpaceChar c = true) ∧
    w7 ≠ [] ∧ (∀ c ∈ w7, isSpaceChar c = true) ∧
    (d = [] ∨ d = [Char.ofNat 36]) ∧
    (∀ c ∈ w8, isSpaceChar c = true)

/-! ## Statements of the specification's claims that differ from the code -/

/-- The heuristic type fallback as the specification words it (claim C5):
`id`/`*_id` first, then the substring group email/password/uuid, then
date/time, then the *prefixes* `is_`/`has_`, then the float group,
else string.  Compared against `inferAttributeType` below. -/
def specInferAttributeType (n : String) : String :=
  if n == "id" || jsEndsWith n ("_id") then "int"
  else if jsIncludes n ("email") || jsIncludes n ("password") || jsIncludes n ("uuid") then "string"
  else if jsIncludes n ("date") || jsIncludes n ("time") then "datetime"
  else if jsStartsWith n ("is_") || jsStartsWith n ("has_") then "boolean"
  else if jsIncludes n ("count") || jsIncludes n ("amount") ||
          jsIncludes n ("price") || jsIncludes n ("total") then "float"
  else "string"

/-- The heuristic type fallback as amended (claim C5): `is_`/`has_` are
substring tests, and the uuid test sits after the float group (where it can
only ever return the default string anyway). -/
def amendedInferAttributeType (n : String) : String :=
  if n == "id" || jsEndsWith n ("_id") then "int"
  else if jsIncludes n ("email") || jsIncludes n ("password") then "string"
  else if jsIncludes n ("date") || jsIncludes n ("time") then "datetime"
  else if jsIncludes n ("is_") || jsIncludes n ("has_") then "boolean"
  else if jsIncludes n ("count") || jsIncludes n ("amount") ||
          jsIncludes n ("price") || jsIncludes n ("total") then "float"
  else if jsIncludes n ("uuid") then "string"
  else "string"

/-! ## Supporting lemmas -/

theorem strData_append (s t : String) : (s ++ t).data = s.data ++ t.data := rfl

theorem listStartsWith_append (p r : List Char) : listStartsWith p (p ++ r) = true := by
  induction p with
  | nil => rfl
  | cons c cs ih => simp [listStartsWith, ih]

theorem listStartsWith_exists {p l : List Char} (h : listStartsWith p l = true) :
    ∃ r, l = p ++ r := by
  induction p generalizing l with
  | nil => exact ⟨l, rfl⟩
  | cons c cs ih =>
    cases l with
    | nil => simp [listStartsWith] at h
    | cons d ds =>
      simp only [listStartsWith, Bool.and_eq_true, beq_iff_eq] at h
      obtain ⟨r, hr⟩ := ih h.2
      exact ⟨r, by rw [h.1, hr]; rfl⟩

theorem listStartsWith_head {c : Char} {p l : List Char}
    (h : listStartsWith (c :: p) l = true) : listStartsWith [c] l = true := by
  cases l with
  | nil => simp [listStartsWith] at h
  | cons d ds =>
    simp only [listStartsWith, Bool.and_eq_true] at h ⊢
    exact ⟨h.1, by simp [listStartsWith]⟩

theorem listContainsSub_of_parts (pat u v : List Char) :
    listContainsSub pat (u ++ (pat ++ v)) = true := by
  induction u with
  | nil =>
    cases e : pat ++ v with
    | nil =>
      have hp : pat = [] := (List.append_eq_nil.mp e).1
      simp [hp, listContainsSub, listStartsWith]
    | cons c cs =>
      have : listStartsWith pat (pat ++ v) = true := listStartsWith_append pat v
      simp only [List.nil_append, e] at this ⊢
      simp [listContainsSub, this]
  | cons d ds ih => simp [listContainsSub, ih]

theorem jsIncludes_of_parts (s sub : String) (u v : List Char)
    (h : s.data = u ++ (sub.data ++ v)) : jsIncludes s sub = true := by
  unfold jsIncludes
  rw [h]
  exact listContainsSub_of_parts sub.data u v

theorem strJoin_mem_parts {s : String} {l : List String} (h : s ∈ l) :
    ∃ u v, (strJoin l).data = u ++ (s.data ++ v) := by
  induction l with
  | nil => cases h
  | cons a as ih =>
    rcases List.mem_cons.mp h with he | hm
    · exact ⟨[], (strJoin as).data, by rw [he]; simp [strJoin, strData_append]⟩
    · obtain ⟨u, v, huv⟩ := ih hm
      exact ⟨a.data ++ u, v, by simp [strJoin, strData_append, huv]⟩

theorem filterMap_removeFirstElem {α β : Type} [DecidableEq α] (f : α → Option β)
    (x : α) (hf : f x = none) (l : List α) :
    (removeFirstElem x l).filterMap f = l.filterMap f := by
  induction l with
  | nil => rfl
  | cons a as ih =>
    unfold removeFirstElem
    by_cases hax : a = x
    · subst hax
      simp [List.filterMap_cons, hf]
    · cases hfa : f a <;> simp [hax, List.filterMap_cons, hfa, ih]

theorem mem_fkPassAux_proc {ms : List SourceUnit} {proc0 : List String}
    {alist0 : List (String × List ForeignKey)} {x : String}
    (h : x ∈ (fkPassAux ms proc0 alist0).1) :
    x ∈ proc0 ∨ ∃ m ∈ ms, x = jsToLower m.name := by
  induction ms generalizing proc0 alist0 with
  | nil => exact Or.inl h
  | cons m rest ih =>
    unfold fkPassAux at h
    by_cases hc : proc0.contains (jsToLower m.name)
    · simp only [hc, if_true] at h
      rcases ih h with h' | ⟨m', hm', e⟩
      · exact Or.inl h'
      · exact Or.inr ⟨m', List.mem_cons_of_mem _ hm', e⟩
    · simp only [hc, if_false, Bool.false_eq_true] at h
      rcases ih h with h' | ⟨m', hm', e⟩
      · rcases List.mem_append.mp h' with hp | hs
        · exact Or.inl hp
        · exact Or.inr ⟨m, List.mem_cons_self m rest, List.mem_singleton.mp hs⟩
      · exact Or.inr ⟨m', List.mem_cons_of_mem _ hm', e⟩

theorem fkPass_contains_false {ms : List SourceUnit} {t : String}
    (h : ∀ m ∈ ms, jsToLower m.name ≠ t) : (fkPass ms).1.contains t = false := by
  by_contra hc
  have hmem : t ∈ (fkPass ms).1 := by
    have hb := Bool.of_not_eq_false hc
    exact List.elem_iff.mp hb
  rcases mem_fkPassAux_proc hmem with h' | ⟨m, hm, e⟩
  · cases h'
  · exact h m hm e.symm

/-! ## Claim C5 — attribute-type inference heuristic -/

/-- C5 counterexample: the claimed priority order is wrong on the code.
At `"luis_count"` the claim's rules give float (no `is_`/`has_` *prefix*,
substring `count`) but `inferAttributeType` gives boolean, because the code
tests `is_` as a *substring*.  At `"uuid_date"` the claim's rules give
string (uuid sits in the second group) but the code gives datetime, because
the code tests `uuid` only after the date/time group. -/
theorem c5_counterexample :
    specInferAttributeType "luis_count" = "float" ∧
    inferAttributeType "luis_count" = "boolean" ∧
    specInferAttributeType "uuid_date" = "string" ∧
    inferAttributeType "uuid_date" = "datetime" := by
  refine ⟨?_, ?_, ?_, ?_⟩ <;> decide

/-- C5 (amended): for every attribute name with no declared cast the
inferred type follows this priority order — name equal to `id` or ending in
`_id` gives int; then substring `email` or `password` gives string; then
substring `date` or `time` gives datetime; then *substring* `is_` or `has_`
gives boolean; then substring `count`/`amount`/`price`/`total` gives float;
then substring `uuid` gives string; otherwise string. -/
theorem c5_infer_type_amended (n : String) :
    inferAttributeType n = amendedInferAttributeType n := by
  unfold inferAttributeType amendedInferAttributeType
  by_cases h2 : jsIncludes n ("email") = true <;>
  by_cases h3 : jsIncludes n ("password") = true <;>
  simp [h2, h3]

/-! ## Claim C6 — restricted resource expansion -/

/-- C6: a resource declaration for path `posts` with the inclusion list
`{index, show}` expands to exactly the two endpoints `GET /posts` handled
by `index` and `GET /posts/{id}` handled by `show`; the other five
conventional actions are excluded. -/
theorem c6_resource_only_index_show (rfName handler : String) :
    (expandResource rfName "posts" handler (some ["index", "show"]) none).map
        (fun e => (e.method, e.path, e.handler)) =
      [("GET", "/posts", handler ++ "@" ++ "index"),
       ("GET", "/posts/\x7bid\x7d", handler ++ "@" ++ "show")] := by
  rfl

/-! ## Claim C7 — cast-keyword canonicalization -/

/-- C7 counterexample: the keywords `constructor` and `__proto__` lie
outside the fixed table, yet they do not canonicalize to `string`: the
bracket lookup on the object literal finds the inherited `Object.prototype`
member, which is truthy, so the `|| "string"` default never applies and the
inherited value (not a canonical type) is returned into the output. -/
theorem c7_counterexample :
    (∀ kv ∈ castTypeMap, kv.1 ≠ "constructor") ∧
    (∀ kv ∈ castTypeMap, kv.1 ≠ "__proto__") ∧
    mapCastTypeToErdType "constructor" = "function Object() \x7b [native code] \x7d" ∧
    mapCastTypeToErdType "constructor" ≠ "string" ∧
    mapCastTypeToErdType "__proto__" = "[object Object]" ∧
    mapCastTypeToErdType "__proto__" ≠ "string" := by
  refine ⟨?_, ?_, ?_, ?_, ?_, ?_⟩ <;> decide

/-- C7 (amended): the table sends `decimal` to `float`, and every keyword
whose lower-cased form is neither a key of the fixed table nor one of the
two all-lowercase inherited `Object.prototype` member names (`constructor`,
`__proto__`) canonicalizes to `string`; for those two member names the
lookup instead returns the truthy inherited prototype member. -/
theorem c7_cast_table_amended (s : String)
    (h : ∀ kv ∈ castTypeMap, kv.1 ≠ jsToLower s)
    (hc : jsToLower s ≠ "constructor")
    (hp : jsToLower s ≠ "__proto__") :
    mapCastTypeToErdType "decimal" = "float" ∧ mapCastTypeToErdType s = "string" := by
  constructor
  · decide
  · unfold mapCastTypeToErdType
    have hnone : castTypeMap.find? (fun kv => kv.1 == jsToLower s) = none := by
      apply List.find?_eq_none.mpr
      intro kv hkv
      simpa using h kv hkv
    have hbc : (jsToLower s == "constructor") = false := by
      cases hq : (jsToLower s == "constructor") with
      | false => rfl
      | true => exact absurd (beq_iff_eq.mp hq) hc
    have hbp : (jsToLower s == "__proto__") = false := by
      cases hq : (jsToLower s == "__proto__") with
      | false => rfl
      | true => exact absurd (beq_iff_eq.mp hq) hp
    rw [hnone]
    simp [hbc, hbp]

/-- C7 witness: the unlisted keyword `text` canonicalizes to `string`. -/
theorem c7_cast_table_amended_witness :
    (∀ kv ∈ castTypeMap, kv.1 ≠ jsToLower "text") ∧
    jsToLower "text" ≠ "constructor" ∧
    jsToLower "text" ≠ "__proto__" ∧
    (mapCastTypeToErdType "decimal" = "float" ∧ mapCastTypeToErdType "text" = "string") :=
  ⟨by decide, by decide, by decide,
   c7_cast_table_amended "text" (by decide) (by decide) (by decide)⟩

/-! ## Claim C8 — sequence classification of `store` -/

/-- C8: an action named `store` is never in the skip list and is classified
as the `create` pattern; the classification reads only the action name (its
argument), so the action's body text cannot influence it. -/
theorem c8_store_is_create :
    classifySequenceType "store" = "create" ∧ "store" ∉ sequenceSkipList := by
  constructor
  · decide
  · decide

/-! ## Claim C2 — UML method lines vs relationship accessors -/

/-- C2 evaluation at the failing input: the model text declares a plain
public method `plainHelper` (whose body invokes no relationship builder)
and a relationship accessor `posts`.  Both are found by the method regex,
yet `generateModelData` emits *no* method entry at all: its skip test asks
whether `this-><kind>` occurs anywhere in the whole class text (and
`function <name>` likewise), not whether the method's own body invokes the
builder — so the presence of one accessor suppresses every method line,
contradicting the code's own comment ("Skip relationship methods"). -/
theorem c2_plain_method_dropped :
    (methodMatchesOf
        ("public function plainHelper() \x7b return 42; \x7d public function posts() \x7b return $this->hasMany(Post::class); \x7d")).map
        (fun pr => pr.1) = ["plainHelper", "posts"] ∧
    generateModelMethods
      ⟨"Post",
       "public function plainHelper() \x7b return 42; \x7d public function posts() \x7b return $this->hasMany(Post::class); \x7d"⟩ = [] := by
  constructor
  · decide
  · decide

/-! ## Claim C3 — default primary key in the ERD entity -/

/-- C3 counterexample: a model with no primary-key override whose text
yields no extractable attributes (here: empty text) gets *no* entity block
at all — the ERD output is just the `erDiagram` header and contains no
`PK`-annotated attribute for the model. -/
theorem c3_counterexample :
    erdPrimaryKeyOf "" = none ∧
    generateERDContent ⟨"demo", [⟨"Ghost", ""⟩], [], []⟩ = "erDiagram\n" ∧
    jsIncludes (generateERDContent ⟨"demo", [⟨"Ghost", ""⟩], [], []⟩) ("PK") = false := by
  refine ⟨?_, ?_, ?_⟩ <;> decide

/-! ## Claim C4 — timestamp and soft-delete columns -/

/-- C4 counterexample: a model that explicitly disables timestamps
(`public $timestamps = false`) but also uses `HasFactory` still gets the
`created_at`/`updated_at` columns in its entity block, because the code's
check is a disjunction that the `HasFactory` trait satisfies. -/
theorem c4_counterexample :
    jsIncludes
        ("use HasFactory; public $timestamps = false; protected $fillable = [\x27title\x27]")
        ("public $timestamps = false") = true ∧
    jsIncludes
        (erdEntityBlock
          ⟨"Post",
           "use HasFactory; public $timestamps = false; protected $fillable = [\x27title\x27]"⟩
          [])
        ("created_at") = true := by
  constructor
  · decide
  · decide

/-- C4 (amended): for a model with a nonempty extracted attribute list, the
entity block ends with the timestamp lines, the soft-delete line and the
closing brace; the `created_at`/`updated_at` pair is emitted if and only if
the text contains `use HasFactory` or `use Timestamps` or does *not*
contain the literal `public $timestamps = false` (so explicitly disabling
timestamps only takes effect in the absence of those traits); the
`deleted_at` line is emitted if and only if the text contains
`use SoftDeletes`. -/
theorem c4_timestamp_softdelete_lines (m : SourceUnit) (fks : List ForeignKey)
    (h : (extractModelAttributes m fks).isEmpty = false) :
    (∃ pre, erdEntityBlock m fks =
        pre ++ erdTimestampLines m.content ++ erdSoftDeleteLine m.content ++ "  \x7d\n") ∧
    (erdTimestampLines m.content = "    datetime created_at\n    datetime updated_at\n" ↔
      (jsIncludes m.content ("use HasFactory") = true ∨
       jsIncludes m.content ("use Timestamps") = true ∨
       jsIncludes m.content ("public $timestamps = false") = false)) ∧
    (erdTimestampLines m.content = "" ↔
      ¬ (jsIncludes m.content ("use HasFactory") = true ∨
         jsIncludes m.content ("use Timestamps") = true ∨
         jsIncludes m.content ("public $timestamps = false") = false)) ∧
    (erdSoftDeleteLine m.content = "    datetime deleted_at\n" ↔
      jsIncludes m.content ("use SoftDeletes") = true) ∧
    (erdSoftDeleteLine m.content = "" ↔ jsIncludes m.content ("use SoftDeletes") = false) := by
  have hts : ("    datetime created_at\n    datetime updated_at\n" : String) ≠ "" := by decide
  have hsd : ("    datetime deleted_at\n" : String) ≠ "" := by decide
  refine ⟨?_, ?_, ?_, ?_, ?_⟩
  · unfold erdEntityBlock
    rw [h]
    exact ⟨_, rfl⟩
  · unfold erdTimestampLines
    by_cases h1 : jsIncludes m.content ("use HasFactory") = true <;>
    by_cases h2 : jsIncludes m.content ("use Timestamps") = true <;>
    by_cases h3 : jsIncludes m.content ("public $timestamps = false") = true <;>
    simp [h1, h2, h3, hts, Bool.not_eq_true]
  · unfold erdTimestampLines
    by_cases h1 : jsIncludes m.content ("use HasFactory") = true <;>
    by_cases h2 : jsIncludes m.content ("use Timestamps") = true <;>
    by_cases h3 : jsIncludes m.content ("public $timestamps = false") = true <;>
    simp [h1, h2, h3, hts, Bool.not_eq_true]
  · unfold erdSoftDeleteLine
    by_cases h4 : jsIncludes m.content ("use SoftDeletes") = true <;> simp [h4, hsd]
  · unfold erdSoftDeleteLine
    by_cases h4 : jsIncludes m.content ("use SoftDeletes") = true <;>
      simp [h4, hsd, Bool.not_eq_true]

/-- C4 witness: the amended statement applied to a model with a fillable
attribute, the `SoftDeletes` trait and no timestamp disabling. -/
theorem c4_timestamp_softdelete_lines_witness :
    (extractModelAttributes
        ⟨"User", "use SoftDeletes; protected $fillable = [\x27name\x27]"⟩ []).isEmpty = false ∧
    (erdTimestampLines ("use SoftDeletes; protected $fillable = [\x27name\x27]") =
        "    datetime created_at\n    datetime updated_at\n" ↔
      (jsIncludes ("use SoftDeletes; protected $fillable = [\x27name\x27]") ("use HasFactory") = true ∨
       jsIncludes ("use SoftDeletes; protected $fillable = [\x27name\x27]") ("use Timestamps") = true ∨
       jsIncludes ("use SoftDeletes; protected $fillable = [\x27name\x27]") ("public $timestamps = false") = false)) :=
  ⟨by decide,
   (c4_timestamp_softdelete_lines
      ⟨"User", "use SoftDeletes; protected $fillable = [\x27name\x27]"⟩ [] (by decide)).2.1⟩

/-! ## Claim C1 — relationships with an unresolved target -/

/-- C1 counterexample: with one model `User` and a relationship whose
target `Ghost` is absent from the project model, the UML class-diagram text
still contains the relationship edge — `generateMermaidDiagram` emits every
relationship unconditionally, with no resolution check — so the claim that
the relationship is omitted from *both* the ERD and the UML text is false. -/
theorem c1_counterexample :
    (∀ m ∈ ([⟨"User", "protected $fillable = [\x27name\x27]"⟩] : List SourceUnit),
      jsToLower m.name ≠ cleanModelName "Ghost") ∧
    jsIncludes
        (generateUMLModelsDiagram
          ⟨"demo", [⟨"User", "protected $fillable = [\x27name\x27]"⟩], [],
           [⟨"User", "hasOne", "profile", "Ghost"⟩]⟩)
        ("  User --> Ghost : profile\n") = true := by
  constructor
  · decide
  · decide

/-- C1 (amended): a relationship whose cleaned target name is not among the
project's (lower-cased) model names contributes nothing to the ERD text —
removing it from the relationships collection leaves the ERD text unchanged
— but its edge line *is* contained in the UML models-diagram text, and the
relationship itself remains present in the project model's relationships
collection. -/
theorem c1_unresolved_target (p : ProjectInfo) (r : RelFact)
    (hmem : r ∈ p.relationships)
    (habs : ∀ m ∈ p.models, jsToLower m.name ≠ cleanModelName r.targetModel) :
    generateERDContent p =
      generateERDContent { p with relationships := removeFirstElem r p.relationships } ∧
    jsIncludes (generateUMLModelsDiagram p) (umlEdgeLine r) = true ∧
    r ∈ p.relationships := by
  have hcontains : (fkPass p.models).1.contains (cleanModelName r.targetModel) = false :=
    fkPass_contains_false habs
  refine ⟨?_, ?_, hmem⟩
  · unfold generateERDContent
    have hcond : ((fkPass p.models).1.contains (cleanModelName r.sourceModel) &&
        (fkPass p.models).1.contains (cleanModelName r.targetModel)) = false := by
      rw [hcontains, Bool.and_false]
    have hlines : erdRelLines (fkPass p.models).1 (removeFirstElem r p.relationships) =
        erdRelLines (fkPass p.models).1 p.relationships := by
      unfold erdRelLines
      refine filterMap_removeFirstElem _ r ?_ p.relationships
      rw [hcond]
      rfl
    simp only [hlines]
  · unfold generateUMLModelsDiagram generateMermaidDiagram
    have hedge : umlEdgeLine r ∈ (diagramDataOf p).relationships.map umlEdgeLine :=
      List.mem_map_of_mem umlEdgeLine hmem
    obtain ⟨u, v, huv⟩ := strJoin_mem_parts hedge
    apply jsIncludes_of_parts
    show (("classDiagram\n" ++ _ ++ _ ++ _) ++
        strJoin ((diagramDataOf p).relationships.map umlEdgeLine)).data = _
    rw [strData_append, huv, ← List.append_assoc]

/-- C1 witness: the amended statement applied to a concrete project with
one model `User` and one relationship `User hasOne Ghost` whose target is
absent. -/
theorem c1_unresolved_target_witness :
    ((⟨"User", "hasOne", "profile", "Ghost"⟩ : RelFact) ∈
      ([⟨"User", "hasOne", "profile", "Ghost"⟩] : List RelFact)) ∧
    (generateERDContent
        ⟨"demo", [⟨"User", "protected $fillable = [\x27name\x27]"⟩], [],
         [⟨"User", "hasOne", "profile", "Ghost"⟩]⟩ =
      generateERDContent
        ⟨"demo", [⟨"User", "protected $fillable = [\x27name\x27]"⟩], [],
         removeFirstElem (⟨"User", "hasOne", "profile", "Ghost"⟩ : RelFact)
           [⟨"User", "hasOne", "profile", "Ghost"⟩]⟩ ∧
     jsIncludes
        (generateUMLModelsDiagram
          ⟨"demo", [⟨"User", "protected $fillable = [\x27name\x27]"⟩], [],
           [⟨"User", "hasOne", "profile", "Ghost"⟩]⟩)
        (umlEdgeLine ⟨"User", "hasOne", "profile", "Ghost"⟩) = true ∧
     (⟨"User", "hasOne", "profile", "Ghost"⟩ : RelFact) ∈
       ([⟨"User", "hasOne", "profile", "Ghost"⟩] : List RelFact)) :=
  ⟨by decide,
   c1_unresolved_target
     ⟨"demo", [⟨"User", "protected $fillable = [\x27name\x27]"⟩], [],
      [⟨"User", "hasOne", "profile", "Ghost"⟩]⟩
     ⟨"User", "hasOne", "profile", "Ghost"⟩
     (by decide) (by decide)⟩

/-! ## Claim C9 — leading slashes and group-prefix tagging -/

/-- C9: (a) every endpoint produced by resource expansion has a path
beginning with `/`; (b) likewise for API-resource expansion; (c) a
verb-declared endpoint records the declared path string verbatim; (d) the
group-prefix tagging pass leaves an endpoint whose path does not start with
`/` entirely unchanged, since a path starting with `/` plus the prefix
would in particular start with `/`. -/
theorem c9_slash_invariant :
    (∀ rfName p h only exceptL e, e ∈ expandResource rfName p h only exceptL →
      jsStartsWith e.path ("/") = true) ∧
    (∀ rfName p h only exceptL e, e ∈ expandApiResource rfName p h only exceptL →
      jsStartsWith e.path ("/") = true) ∧
    (∀ rfName ms, (extractStandardRoutes rfName ms).map (fun e => e.path) =
      ms.map (fun m => m.path)) ∧
    (∀ pfxs rfName e, jsStartsWith e.path ("/") = false →
      tagEndpoint pfxs rfName e = e) := by
  have hslash : ∀ (p suf : String), jsStartsWith ("/" ++ p ++ suf) ("/") = true := by
    intro p suf
    unfold jsStartsWith
    rw [show ("/" ++ p ++ suf).data = '/' :: (p.data ++ suf.data) by
      rw [strData_append, strData_append]; rfl]
    simp [listStartsWith]
  refine ⟨?_, ?_, ?_, ?_⟩
  · intro rfName p h only exceptL e he
    obtain ⟨r, _, hfr⟩ := List.mem_filterMap.mp he
    by_cases hs : resourceRowSkipped only exceptL r.action = true
    · rw [hs] at hfr
      simp at hfr
    · rw [Bool.not_eq_true] at hs
      rw [hs] at hfr
      simp only [if_false, Option.some_inj, Bool.false_eq_true, reduceIte] at hfr
      rw [← hfr]
      exact hslash p r.suffix
  · intro rfName p h only exceptL e he
    obtain ⟨r, _, hfr⟩ := List.mem_filterMap.mp he
    by_cases hs : resourceRowSkipped only exceptL r.action = true
    · rw [hs] at hfr
      simp at hfr
    · rw [Bool.not_eq_true] at hs
      rw [hs] at hfr
      simp only [if_false, Option.some_inj, Bool.false_eq_true, reduceIte] at hfr
      rw [← hfr]
      exact hslash p r.suffix
  · intro rfName ms
    induction ms with
    | nil => rfl
    | cons m rest ih =>
      simp only [extractStandardRoutes, List.map_cons] at ih ⊢
      exact congrArg (List.cons m.path) ih
  · intro pfxs rfName e hpath
    unfold tagEndpoint
    induction pfxs with
    | nil => rfl
    | cons pfx rest ih =>
      rw [List.foldl_cons]
      have hnostart : jsStartsWith e.path ("/" ++ pfx) = false := by
        by_contra hx
        have hx' := Bool.of_not_eq_false hx
        unfold jsStartsWith at hx' hpath
        have : listStartsWith ("/".data) e.path.data = true := by
          have hdata : ("/" ++ pfx).data = '/' :: pfx.data := by
            rw [strData_append]; rfl
          rw [hdata] at hx'
          exact listStartsWith_head hx'
        rw [hpath] at this
        cases this
      have hstep : (if e.routeFile == rfName && jsStartsWith e.path ("/" ++ pfx) then
          { e with group := some pfx } else e) = e := by
        rw [hnostart, Bool.and_false]
        rfl
      rw [hstep]
      exact ih

/-- C9 witness: part (a) at the `GET /posts` endpoint of an unrestricted
resource expansion, part (c) at a one-element match list whose declared
path `ping` lacks a leading slash, and part (d) showing that endpoint
survives group tagging unchanged. -/
theorem c9_slash_invariant_witness :
    ((⟨"GET", "/" ++ "posts" ++ "", "P" ++ "@" ++ "index", none, "List all " ++ "posts",
        "web", some "Resource"⟩ : Endpoint) ∈
      expandResource "web" "posts" ("P") none none ∧
     jsStartsWith ("/" ++ "posts" ++ "" : String) ("/") = true) ∧
    ((extractStandardRoutes "web" [⟨"get", "ping", none, some "PingController@ping", none⟩]).map
        (fun e => e.path) =
      [⟨"get", "ping", none, some "PingController@ping", none⟩].map
        (fun m => StdRouteMatch.path m)) ∧
    (jsStartsWith ("ping" : String) ("/") = false ∧
     tagEndpoint ["api"] "web"
        ⟨"GET", "ping", "PingController@ping", none, "List ping", "web", none⟩ =
      ⟨"GET", "ping", "PingController@ping", none, "List ping", "web", none⟩) := by
  refine ⟨⟨by decide, ?_⟩, ?_, by decide, ?_⟩
  · exact c9_slash_invariant.1 "web" "posts" ("P") none none
      ⟨"GET", "/" ++ "posts" ++ "", "P" ++ "@" ++ "index", none, "List all " ++ "posts",
       "web", some "Resource"⟩ (by decide)
  · exact c9_slash_invariant.2.2.1 "web" [⟨"get", "ping", none, some "PingController@ping", none⟩]
  · exact c9_slash_invariant.2.2.2 ["api"] "web"
      ⟨"GET", "ping", "PingController@ping", none, "List ping", "web", none⟩ (by decide)

/-! ## Claim C3 — supporting lemmas on the attribute phases -/

theorem strAppend_ne_empty (s t : String) (hs : s ≠ "") : (s ++ t) ≠ "" := by
  intro heq
  apply hs
  have hd := congrArg String.data heq
  rw [strData_append] at hd
  have h0 := List.append_eq_nil.mp hd
  cases s with
  | mk data => exact congrArg String.mk h0.1

theorem mem_updateFirst {α : Type} (pred : α → Bool) (f : α → α) (l : List α) {x : α}
    (hx : x ∈ updateFirst pred f l) : x ∈ l ∨ ∃ b ∈ l, x = f b := by
  induction l with
  | nil => cases hx
  | cons a as ih =>
    unfold updateFirst at hx
    by_cases hp : pred a = true
    · rw [if_pos hp] at hx
      rcases List.mem_cons.mp hx with he | hm
      · exact Or.inr ⟨a, List.mem_cons_self a as, he⟩
      · exact Or.inl (List.mem_cons_of_mem _ hm)
    · rw [if_neg hp] at hx
      rcases List.mem_cons.mp hx with he | hm
      · exact Or.inl (he ▸ List.mem_cons_self a as)
      · rcases ih hm with h' | ⟨b, hb, he'⟩
        · exact Or.inl (List.mem_cons_of_mem _ h')
        · exact Or.inr ⟨b, List.mem_cons_of_mem _ hb, he'⟩

theorem filter_updateFirst_type (T : String) (pred : AttrInfo → Bool) (l : List AttrInfo)
    (hmatch : ∀ a ∈ l, pred a = true → a.isPrimaryKey = false) :
    ((updateFirst pred (fun a => { a with type := T }) l).filter
        (fun a => a.isPrimaryKey)).map (fun a => (a.type, a.name)) =
      (l.filter (fun a => a.isPrimaryKey)).map (fun a => (a.type, a.name)) := by
  induction l with
  | nil => rfl
  | cons a as ih =>
    unfold updateFirst
    by_cases hp : pred a = true
    · rw [if_pos hp]
      have hpk : a.isPrimaryKey = false := hmatch a (List.mem_cons_self a as) hp
      simp [List.filter_cons, hpk]
    · rw [if_neg hp]
      have ih' := ih (fun b hb hpb => hmatch b (List.mem_cons_of_mem _ hb) hpb)
      cases ha : a.isPrimaryKey <;> simp [List.filter_cons, ha, ih']

theorem filter_updateFirst_pres (pred : AttrInfo → Bool) (f : AttrInfo → AttrInfo)
    (hf : ∀ a, (f a).isPrimaryKey = a.isPrimaryKey ∧ (f a).type = a.type ∧
      (f a).name = a.name) (l : List AttrInfo) :
    ((updateFirst pred f l).filter (fun a => a.isPrimaryKey)).map
        (fun a => (a.type, a.name)) =
      (l.filter (fun a => a.isPrimaryKey)).map (fun a => (a.type, a.name)) := by
  induction l with
  | nil => rfl
  | cons a as ih =>
    unfold updateFirst
    by_cases hp : pred a = true
    · rw [if_pos hp]
      obtain ⟨hfp, hft, hfn⟩ := hf a
      cases ha : a.isPrimaryKey <;>
        simp [List.filter_cons, hfp, ha, hft, hfn]
    · rw [if_neg hp]
      cases ha : a.isPrimaryKey <;> simp [List.filter_cons, ha, ih]

theorem filter_append_notPK (l : List AttrInfo) (x : AttrInfo)
    (hx : x.isPrimaryKey = false) :
    ((l ++ [x]).filter (fun a => a.isPrimaryKey)).map (fun a => (a.type, a.name)) =
      (l.filter (fun a => a.isPrimaryKey)).map (fun a => (a.type, a.name)) := by
  simp [List.filter_append, List.filter_cons, hx]

theorem applyFillable_P (toks : List String) :
    (((applyFillable toks).filter (fun a => a.isPrimaryKey)).map
        (fun a => (a.type, a.name))) =
      ((toks.filter (fun t => t == "id")).map (fun _ => (("int" : String), ("id" : String)))) := by
  induction toks with
  | nil => rfl
  | cons t ts ih =>
    unfold applyFillable at ih ⊢
    cases ht : (t == "id") with
    | true =>
      have hte : t = "id" := beq_iff_eq.mp ht
      subst hte
      simp only [List.map_cons, List.filter_cons]
      rw [show (fillableAttr "id").isPrimaryKey = true from rfl]
      simp only [if_true, List.map_cons, ih]
      rfl
    | false =>
      simp only [List.map_cons, List.filter_cons]
      rw [show (fillableAttr t).isPrimaryKey = (t == "id") from rfl, ht]
      simp only [Bool.false_eq_true, if_false, ih, ht]

theorem applyFillable_NmInv (toks : List String) :
    ∀ a ∈ applyFillable toks, a.isPrimaryKey = true → a.name = "id" := by
  intro a ha hpk
  obtain ⟨t, _, he⟩ := List.mem_map.mp ha
  rw [← he] at hpk ⊢
  exact beq_iff_eq.mp hpk

theorem applyCastEntry_P_NmInv (l : List AttrInfo) (e : String × String)
    (he : e.1 ≠ "id")
    (hinv : ∀ a ∈ l, a.isPrimaryKey = true → a.name = "id") :
    (((applyCastEntry l e).filter (fun a => a.isPrimaryKey)).map
        (fun a => (a.type, a.name)) =
      (l.filter (fun a => a.isPrimaryKey)).map (fun a => (a.type, a.name))) ∧
    (∀ a ∈ applyCastEntry l e, a.isPrimaryKey = true → a.name = "id") := by
  unfold applyCastEntry
  by_cases hany : l.any (fun a => a.name == e.1) = true
  · rw [if_pos hany]
    constructor
    · apply filter_updateFirst_type
      intro a ha hpa
      cases hpk : a.isPrimaryKey with
      | false => rfl
      | true =>
        have hn := hinv a ha hpk
        have : a.name = e.1 := beq_iff_eq.mp hpa
        exact absurd (this ▸ hn) he
    · intro a ha hpk
      rcases mem_updateFirst _ _ _ ha with h' | ⟨b, hb, he'⟩
      · exact hinv a h' hpk
      · rw [he'] at hpk ⊢
        exact hinv b hb hpk
  · rw [if_neg hany]
    have hidf : (e.1 == "id") = false := by
      cases hq : (e.1 == "id") with
      | false => rfl
      | true => exact absurd (beq_iff_eq.mp hq) he
    constructor
    · apply filter_append_notPK
      simp [hidf]
    · intro a ha hpk
      rcases List.mem_append.mp ha with h' | h''
      · exact hinv a h' hpk
      · have : a = _ := List.mem_singleton.mp h''
        rw [this] at hpk
        simp [hidf] at hpk

theorem applyCasts_P_NmInv (entries : List (String × String)) (l : List AttrInfo)
    (he : ∀ e ∈ entries, e.1 ≠ "id")
    (hinv : ∀ a ∈ l, a.isPrimaryKey = true → a.name = "id") :
    (((applyCasts l entries).filter (fun a => a.isPrimaryKey)).map
        (fun a => (a.type, a.name)) =
      (l.filter (fun a => a.isPrimaryKey)).map (fun a => (a.type, a.name))) ∧
    (∀ a ∈ applyCasts l entries, a.isPrimaryKey = true → a.name = "id") := by
  induction entries generalizing l with
  | nil => exact ⟨rfl, hinv⟩
  | cons e es ih =>
    have hstep := applyCastEntry_P_NmInv l e (he e (List.mem_cons_self e es)) hinv
    have ihs := ih (applyCastEntry l e)
      (fun e' he' => he e' (List.mem_cons_of_mem _ he')) hstep.2
    exact ⟨ihs.1.trans hstep.1, ihs.2⟩

theorem applyFk_P (l : List AttrInfo) (fk : ForeignKey) :
    ((applyFk l fk).filter (fun a => a.isPrimaryKey)).map (fun a => (a.type, a.name)) =
      (l.filter (fun a => a.isPrimaryKey)).map (fun a => (a.type, a.name)) := by
  unfold applyFk
  by_cases hany : l.any (fun a => a.name == fk.name) = true
  · rw [if_pos hany]
    exact filter_updateFirst_pres (fun a => a.name == fk.name)
      (fun a => { a with isForeignKey := true, references := some fk.references })
      (fun a => ⟨rfl, rfl, rfl⟩) l
  · rw [if_neg hany]
    exact filter_append_notPK l _ rfl

theorem applyFks_P (fks : List ForeignKey) (l : List AttrInfo) :
    (((fks.foldl applyFk l).filter (fun a => a.isPrimaryKey)).map
        (fun a => (a.type, a.name))) =
      (l.filter (fun a => a.isPrimaryKey)).map (fun a => (a.type, a.name)) := by
  induction fks generalizing l with
  | nil => rfl
  | cons fk rest ih =>
    rw [List.foldl_cons]
    exact (ih (applyFk l fk)).trans (applyFk_P l fk)

/-- C3 (amended): for every model without an explicit primary-key override
whose extracted attribute list is nonempty, provided the fillable list
names `id` at most once and the cast map declares no entry for `id`, the
ERD output contains an entity block for the model and the rows of that
block carry exactly one `PK`-annotated attribute, named `id` with type
`int`.  (The counterexample above shows the claim fails without the
nonemptiness proviso, since a model yielding no attributes gets no block.) -/
theorem c3_default_pk_amended (m : SourceUnit) (fks : List ForeignKey)
    (h1 : erdPrimaryKeyOf m.content = none)
    (h2 : ((fillableTokensErd m.content).filter (fun t => t == "id")).length ≤ 1)
    (h3 : ∀ e ∈ castEntriesErd m.content, e.1 ≠ "id")
    (h4 : (extractModelAttributes m fks).isEmpty = false) :
    erdEntityBlock m fks ≠ "" ∧
    ((erdRowAttrs m fks).filter (fun a => a.isPrimaryKey)).map
        (fun a => (a.type, a.name)) = [("int", "id")] := by
  have hP : ((extractModelAttributes m fks).filter (fun a => a.isPrimaryKey)).map
      (fun a => (a.type, a.name)) =
      ((fillableTokensErd m.content).filter (fun t => t == "id")).map
        (fun _ => (("int" : String), ("id" : String))) := by
    unfold extractModelAttributes
    rw [h1]
    have hcasts := applyCasts_P_NmInv (castEntriesErd m.content)
      (applyFillable (fillableTokensErd m.content)) h3
      (applyFillable_NmInv (fillableTokensErd m.content))
    refine (applyFks_P fks _).trans ?_
    exact hcasts.1.trans (applyFillable_P (fillableTokensErd m.content))
  constructor
  · unfold erdEntityBlock
    rw [h4]
    simp only [Bool.false_eq_true, if_false]
    exact strAppend_ne_empty _ _ (strAppend_ne_empty _ _ (strAppend_ne_empty _ _
      (strAppend_ne_empty _ _ (strAppend_ne_empty _ _ (strAppend_ne_empty ("  ")
        (jsToLower m.name) (by decide))))))
  · unfold erdRowAttrs
    rcases hF : (fillableTokensErd m.content).filter (fun t => t == "id") with
      _ | ⟨t, _ | ⟨t2, rest⟩⟩
    · rw [hF] at hP
      have hfilter : (extractModelAttributes m fks).filter (fun a => a.isPrimaryKey) = [] :=
        List.map_eq_nil_iff.mp hP
      have hany : (extractModelAttributes m fks).any (fun a => a.isPrimaryKey) = false := by
        cases hq : (extractModelAttributes m fks).any (fun a => a.isPrimaryKey) with
        | false => rfl
        | true =>
          obtain ⟨a, ha, hpa⟩ := List.any_eq_true.mp hq
          have : a ∈ (extractModelAttributes m fks).filter (fun a => a.isPrimaryKey) :=
            List.mem_filter.mpr ⟨ha, hpa⟩
          rw [hfilter] at this
          cases this
      rw [hany]
      simp only [Bool.false_eq_true, if_false, List.cons_append, List.nil_append]
      rw [List.filter_cons]
      simp only [show (⟨"id", "int", true, false, none⟩ : AttrInfo).isPrimaryKey = true from rfl,
        if_true, List.map_cons, hfilter]
      rfl
    · rw [hF] at hP
      have hne : (extractModelAttributes m fks).filter (fun a => a.isPrimaryKey) ≠ [] := by
        intro hnil
        rw [hnil] at hP
        cases hP
      have hany : (extractModelAttributes m fks).any (fun a => a.isPrimaryKey) = true := by
        rcases hq : (extractModelAttributes m fks).filter (fun a => a.isPrimaryKey) with
          _ | ⟨a, _⟩
        · exact absurd hq hne
        · have ha := List.mem_filter.mp (hq ▸ List.mem_cons_self a _)
          exact List.any_eq_true.mpr ⟨a, ha.1, ha.2⟩
      rw [hany]
      simp only [if_true, List.nil_append]
      exact hP
    · rw [hF] at h2
      simp at h2

/-- C3 witness: the amended statement applied to a model with one fillable
attribute `name`, no casts and no primary-key override. -/
theorem c3_default_pk_amended_witness :
    erdPrimaryKeyOf ("protected $fillable = [\x27name\x27]") = none ∧
    (erdEntityBlock ⟨"User", "protected $fillable = [\x27name\x27]"⟩ [] ≠ "" ∧
     ((erdRowAttrs ⟨"User", "protected $fillable = [\x27name\x27]"⟩ []).filter
         (fun a => a.isPrimaryKey)).map (fun a => (a.type, a.name)) = [("int", "id")]) :=
  ⟨by decide,
   c3_default_pk_amended ⟨"User", "protected $fillable = [\x27name\x27]"⟩ []
     (by decide) (by decide) (by decide) (by decide)⟩

/-! ## Claim C10 — supporting lemmas on the relationship matcher -/

theorem litP_eq_some {p cs r : List Char} (h : litP p cs = some r) : cs = p ++ r := by
  induction p generalizing cs with
  | nil => cases h; rfl
  | cons x xs ih =>
    cases cs with
    | nil => cases h
    | cons c cs' =>
      unfold litP at h
      by_cases hx : (x == c) = true
      · rw [if_pos hx] at h
        rw [beq_iff_eq.mp hx]
        exact congrArg (List.cons c) (ih h)
      · rw [if_neg hx] at h
        cases h

theorem wsPlusP_eq_some {cs r : List Char} (h : wsPlusP cs = some r) :
    ∃ w, cs = w ++ r ∧ w ≠ [] ∧ (∀ c ∈ w, isSpaceChar c = true) := by
  cases cs with
  | nil => cases h
  | cons c cs' =>
    unfold wsPlusP at h
    dsimp only at h
    by_cases hc : isSpaceChar c = true
    · rw [if_pos hc] at h
      refine ⟨(c :: cs').takeWhile isSpaceChar, ?_, ?_, ?_⟩
      · rw [← Option.some_inj.mp h]
        exact (List.takeWhile_append_dropWhile isSpaceChar (c :: cs')).symm
      · rw [List.takeWhile_cons, hc]
        simp
      · intro x hx
        exact List.mem_takeWhile_imp hx
    · rw [if_neg hc] at h
      cases h

theorem wsStar_decomp (cs : List Char) :
    cs = cs.takeWhile isSpaceChar ++ cs.dropWhile isSpaceChar ∧
    (∀ c ∈ cs.takeWhile isSpaceChar, isSpaceChar c = true) :=
  ⟨(List.takeWhile_append_dropWhile isSpaceChar cs).symm,
   fun _ hx => List.mem_takeWhile_imp hx⟩

theorem wordPlusP_eq_some {cs w r : List Char} (h : wordPlusP cs = some (w, r)) :
    cs = w ++ r ∧ w ≠ [] ∧ (∀ c ∈ w, isWordChar c = true) := by
  unfold wordPlusP at h
  dsimp only at h
  by_cases he : (cs.takeWhile isWordChar).isEmpty = true
  · rw [if_pos he] at h
    cases h
  · rw [if_neg he] at h
    have hpair := Option.some_inj.mp h
    have hw : cs.takeWhile isWordChar = w := congrArg Prod.fst hpair
    have hr : cs.dropWhile isWordChar = r := congrArg Prod.snd hpair
    refine ⟨?_, ?_, ?_⟩
    · rw [← hw, ← hr]
      exact (List.takeWhile_append_dropWhile isWordChar cs).symm
    · intro hz
      rw [hz] at hw
      rw [hw] at he
      exact he rfl
    · intro c hc
      rw [← hw] at hc
      exact List.mem_takeWhile_imp hc

theorem suffix_extend {α : Type} {l t : List α} (s : List α) (h : l <:+ t) :
    l <:+ s ++ t := by
  obtain ⟨u, hu⟩ := h
  exact ⟨s ++ u, by rw [List.append_assoc, hu]⟩

theorem matchRelAt_sound {kind : List Char} {hasCap : Bool} {cs nm cap rest : List Char}
    (h : matchRelAt kind hasCap cs = some (nm, cap, rest)) :
    RelAccessorShape kind cs nm ∧ ∃ u, cs = u ++ rest := by
  unfold matchRelAt at h
  simp only [bind, Option.bind_eq_some] at h
  obtain ⟨r1, hl1, h⟩ := h
  obtain ⟨r2, hw1, h⟩ := h
  obtain ⟨r3, hl2, h⟩ := h
  obtain ⟨r4, hw2, h⟩ := h
  obtain ⟨⟨nm0, r5⟩, hword, h⟩ := h
  dsimp only at h
  obtain ⟨r7, hl4, h⟩ := h
  obtain ⟨r9, hl5, h⟩ := h
  obtain ⟨r11, hl6, h⟩ := h
  obtain ⟨r13, hl7, h⟩ := h
  obtain ⟨r14, hw7, h⟩ := h
  obtain ⟨r16, hl8, h⟩ := h
  obtain ⟨r18, hl9, h⟩ := h
  obtain ⟨w1, e1, hne1, hsp1⟩ := wsPlusP_eq_some hw1
  obtain ⟨w2, e2, hne2, hsp2⟩ := wsPlusP_eq_some hw2
  obtain ⟨eword, hnenm, hwd⟩ := wordPlusP_eq_some hword
  obtain ⟨w7, e7, hne7, hsp7⟩ := wsPlusP_eq_some hw7
  have e3 := (wsStar_decomp r5).1
  have hsp3 := (wsStar_decomp r5).2
  have e4 := (wsStar_decomp r7).1
  have hsp4 := (wsStar_decomp r7).2
  have e5 := (wsStar_decomp r9).1
  have hsp5 := (wsStar_decomp r9).2
  have e6 := (wsStar_decomp r11).1
  have hsp6 := (wsStar_decomp r11).2
  have e8 := (wsStar_decomp r16).1
  have hsp8 := (wsStar_decomp r16).2
  -- the optional `$`
  have hdollar : ∃ d, (d = [] ∨ d = [Char.ofNat 36]) ∧
      r14 = d ++ (if (r14.head? == some '$') = true then r14.tail else r14) := by
    by_cases hb : (r14.head? == some '$') = true
    · refine ⟨[Char.ofNat 36], Or.inr rfl, ?_⟩
      rw [if_pos hb]
      have hhead : r14.head? = some '$' := beq_iff_eq.mp hb
      cases r14 with
      | nil => cases hhead
      | cons c t =>
        have hc : c = '$' := by
          have := Option.some_inj.mp hhead
          simpa using this
        rw [hc]
        rfl
    · exact ⟨[], Or.inl rfl, by rw [if_neg hb, List.nil_append]⟩
  obtain ⟨d, hd, ed⟩ := hdollar
  -- assemble the decomposition of cs down to the builder's open paren
  have hcs : cs = "public".data ++ (w1 ++ ("function".data ++ (w2 ++ (nm0 ++
      ((r5.takeWhile isSpaceChar) ++ ("(".data ++ ((r7.takeWhile isSpaceChar) ++
      (")".data ++ ((r9.takeWhile isSpaceChar) ++ ("\x7b".data ++
      ((r11.takeWhile isSpaceChar) ++ ("return".data ++ (w7 ++ (d ++
      ("this->".data ++ (kind ++ ((r16.takeWhile isSpaceChar) ++
      ("(".data ++ r18)))))))))))))))))) := by
    conv_lhs => rw [litP_eq_some hl1, e1, litP_eq_some hl2, e2, eword, e3,
      litP_eq_some hl4, e4, litP_eq_some hl5, e5, litP_eq_some hl6, e6,
      litP_eq_some hl7, e7, ed, litP_eq_some hl8, e8, litP_eq_some hl9]
    simp only [List.append_assoc]
  have h18 : r18 <:+ cs := by
    rw [hcs]
    exact suffix_extend _ (suffix_extend _ (suffix_extend _ (suffix_extend _ (suffix_extend _ (suffix_extend _ (suffix_extend _ (suffix_extend _ (suffix_extend _ (suffix_extend _ (suffix_extend _ (suffix_extend _ (suffix_extend _ (suffix_extend _ (suffix_extend _ (suffix_extend _ (suffix_extend _ (suffix_extend _ (suffix_extend _ (List.suffix_refl r18)))))))))))))))))))
  -- finish per capture mode
  have hshape0 : ∀ nmx, nmx = nm0 → RelAccessorShape kind cs nmx := by
    intro nmx hx
    subst hx
    exact ⟨[], w1, w2, r5.takeWhile isSpaceChar, r7.takeWhile isSpaceChar,
      r9.takeWhile isSpaceChar, r11.takeWhile isSpaceChar, w7, d,
      r16.takeWhile isSpaceChar, r18, by rw [List.nil_append]; exact hcs,
      hne1, hsp1, hne2, hsp2, hnenm, hwd, hsp3, hsp4, hsp5, hsp6, hne7, hsp7, hd, hsp8⟩
  cases hasCap with
  | false =>
    rw [if_neg Bool.false_ne_true] at h
    have := Option.some_inj.mp h
    have hnm : nm = nm0 := (congrArg (fun t => t.1) this).symm
    have hrest : rest = r18 := (congrArg (fun t => t.2.2) this).symm
    exact ⟨hshape0 nm hnm, by
      obtain ⟨u, hu⟩ := h18
      exact ⟨u, by rw [hrest, ← hu]⟩⟩
  | true =>
    rw [if_pos rfl] at h
    by_cases hcap : ((r18.dropWhile isSpaceChar).takeWhile
        (fun c => !(c == ',' || c == ')'))).isEmpty = true
    · rw [if_neg (by rw [hcap]; exact Bool.false_ne_true)] at h
      by_cases hsp : (r18.takeWhile isSpaceChar).isEmpty = true
      · rw [if_neg (by rw [hsp]; exact Bool.false_ne_true)] at h
        cases h
      · rw [if_pos (by rw [Bool.not_eq_true] at hsp; rw [hsp]; rfl)] at h
        have := Option.some_inj.mp h
        have hnm : nm = nm0 := (congrArg (fun t => t.1) this).symm
        have hrest : rest = r18.dropWhile isSpaceChar :=
          (congrArg (fun t => t.2.2) this).symm
        refine ⟨hshape0 nm hnm, ?_⟩
        have hsub : rest <:+ r18 := by
          rw [hrest]
          exact ⟨r18.takeWhile isSpaceChar, List.takeWhile_append_dropWhile _ _⟩
        obtain ⟨u, hu⟩ := hsub.trans h18
        exact ⟨u, hu.symm⟩
    · rw [if_pos (by rw [Bool.not_eq_true] at hcap; rw [hcap]; rfl)] at h
      have := Option.some_inj.mp h
      have hnm : nm = nm0 := (congrArg (fun t => t.1) this).symm
      have hrest : rest = (r18.dropWhile isSpaceChar).drop
          ((r18.dropWhile isSpaceChar).takeWhile (fun c => !(c == ',' || c == ')'))).length :=
        (congrArg (fun t => t.2.2) this).symm
      refine ⟨hshape0 nm hnm, ?_⟩
      have hsub1 : rest <:+ r18.dropWhile isSpaceChar := by
        rw [hrest]
        exact List.drop_suffix _ _
      have hsub2 : r18.dropWhile isSpaceChar <:+ r18 :=
        ⟨r18.takeWhile isSpaceChar, List.takeWhile_append_dropWhile _ _⟩
      obtain ⟨u, hu⟩ := (hsub1.trans hsub2).trans h18
      exact ⟨u, hu.symm⟩

theorem scanAll_rel_sound (kind : List Char) (hasCap : Bool) :
    ∀ (fuel : Nat) (cs nm cap : List Char),
      (nm, cap) ∈ scanAll
          (fun cs0 => (matchRelAt kind hasCap cs0).map (fun t => ((t.1, t.2.1), t.2.2)))
          fuel cs →
      ∃ pre s rest, cs = pre ++ s ∧ matchRelAt kind hasCap s = some (nm, cap, rest) := by
  intro fuel
  induction fuel with
  | zero =>
    intro cs nm cap h
    cases h
  | succ fuel ih =>
    intro cs nm cap h
    cases hm : matchRelAt kind hasCap cs with
    | some t =>
      simp only [scanAll, hm, Option.map_some'] at h
      rcases List.mem_cons.mp h with he | hmem
      · have hnm : nm = t.1 := congrArg Prod.fst he
        have hcap2 : cap = t.2.1 := congrArg Prod.snd he
        refine ⟨[], cs, t.2.2, rfl, ?_⟩
        rw [hnm, hcap2]
        exact hm
      · obtain ⟨pre', s, rest, he', hm'⟩ := ih t.2.2 nm cap hmem
        obtain ⟨u, hu⟩ :=
          (matchRelAt_sound (show matchRelAt kind hasCap cs = some (t.1, t.2.1, t.2.2)
            from hm)).2
        exact ⟨u ++ pre', s, rest, by rw [hu, he', List.append_assoc], hm'⟩
    | none =>
      simp only [scanAll, hm, Option.map_none'] at h
      cases cs with
      | nil => cases h
      | cons c cs' =>
        obtain ⟨pre', s, rest, he', hm'⟩ := ih cs' nm cap h
        exact ⟨c :: pre', s, rest, by rw [he']; rfl, hm'⟩

theorem mem_foldr_append {α β : Type} (g : α → List β) (l : List α) {x : β}
    (h : x ∈ l.foldr (fun a acc => g a ++ acc) []) : ∃ a ∈ l, x ∈ g a := by
  induction l with
  | nil => cases h
  | cons a as ih =>
    rcases List.mem_append.mp h with h' | h''
    · exact ⟨a, List.mem_cons_self a as, h'⟩
    · obtain ⟨b, hb, hx⟩ := ih h''
      exact ⟨b, List.mem_cons_of_mem _ hb, hx⟩

theorem RelAccessorShape_extend {kind nm : List Char} (pre : List Char) {s : List Char}
    (h : RelAccessorShape kind s nm) : RelAccessorShape kind (pre ++ s) nm := by
  obtain ⟨p0, w1, w2, w3, w4, w5, w6, w7, d, w8, tail, heq, hprops⟩ := h
  exact ⟨pre ++ p0, w1, w2, w3, w4, w5, w6, w7, d, w8, tail,
    by rw [heq, List.append_assoc], hprops⟩

/-- C10: every Relationship fact produced by `parseModelRelationships` has
one of the seven extracted kinds (never `hasOneThrough`/`hasManyThrough`)
and certifies that the model text contains a public function with the
fact's relation name, an *empty* parameter list (nothing but whitespace
between the parens) and a body whose first statement is the `return` of the
builder call `this-><kind>(`; and concretely, a model whose accessors use
`hasManyThrough`/`hasOneThrough`, take a parameter, or run a statement
before the `return` contributes no fact at all. -/
theorem c10_relationship_extraction :
    (∀ models fact, fact ∈ parseModelRelationships models →
      fact.relationshipType ∈
        (["hasOne", "hasMany", "belongsTo", "belongsToMany",
          "morphTo", "morphMany", "morphOne"] : List String) ∧
      ∃ m, m ∈ models ∧ fact.sourceModel = m.name ∧
        RelAccessorShape fact.relationshipType.data m.content.data
          fact.relationshipName.data) ∧
    parseModelRelationships
      [⟨"Course",
        "public function lectures() \x7b return $this->hasManyThrough(Lecture::class, Section::class); \x7d public function photo() \x7b return $this->hasOneThrough(Photo::class, User::class); \x7d"⟩] = [] ∧
    parseModelRelationships
      [⟨"A", "public function posts($type) \x7b return $this->hasMany(Post::class); \x7d"⟩] = [] ∧
    parseModelRelationships
      [⟨"B", "public function posts() \x7b $q = 1; return $this->hasMany(Post::class); \x7d"⟩] = [] := by
  refine ⟨?_, by decide, by decide, by decide⟩
  intro models fact hf
  unfold parseModelRelationships at hf
  obtain ⟨m, hm, hfm⟩ := mem_foldr_append factsForModel models hf
  unfold factsForModel at hfm
  obtain ⟨kp, hkp, hscan⟩ := mem_foldr_append _ relPatternKinds hfm
  obtain ⟨pr, hpr, hfact⟩ := List.mem_map.mp hscan
  obtain ⟨nm, cap⟩ := pr
  unfold scanRel at hpr
  obtain ⟨pre, s, rest, heq, hmatch⟩ :=
    scanAll_rel_sound kp.1.data kp.2 (m.content.data.length + 1) m.content.data nm cap hpr
  have hshape := RelAccessorShape_extend pre (matchRelAt_sound hmatch).1
  rw [← heq] at hshape
  subst hfact
  constructor
  · have h1 : kp.1 ∈ relPatternKinds.map Prod.fst := List.mem_map_of_mem Prod.fst hkp
    have h2 : relPatternKinds.map Prod.fst =
        ["hasOne", "hasMany", "belongsTo", "belongsToMany",
         "morphTo", "morphMany", "morphOne"] := rfl
    rw [h2] at h1
    exact h1
  · exact ⟨m, hm, rfl, hshape⟩

/-- C10 witness: the soundness statement applied to a model with one
well-formed `hasMany` accessor, whose extracted fact is exhibited
concretely. -/
theorem c10_relationship_extraction_witness :
    ((⟨"User", "hasMany", "posts", "Post::class"⟩ : RelFact) ∈
      parseModelRelationships
        [⟨"User", "public function posts() \x7b return $this->hasMany(Post::class); \x7d"⟩]) ∧
    ((⟨"User", "hasMany", "posts", "Post::class"⟩ : RelFact).relationshipType ∈
      (["hasOne", "hasMany", "belongsTo", "belongsToMany",
        "morphTo", "morphMany", "morphOne"] : List String) ∧
     ∃ m, m ∈ ([⟨"User",
        "public function posts() \x7b return $this->hasMany(Post::class); \x7d"⟩] :
          List SourceUnit) ∧
       (⟨"User", "hasMany", "posts", "Post::class"⟩ : RelFact).sourceModel = m.name ∧
       RelAccessorShape
         (⟨"User", "hasMany", "posts", "Post::class"⟩ : RelFact).relationshipType.data
         m.content.data
         (⟨"User", "hasMany", "posts", "Post::class"⟩ : RelFact).relationshipName.data) :=
  ⟨by decide,
   c10_relationship_extraction.1
     [⟨"User", "public function posts() \x7b return $this->hasMany(Post::class); \x7d"⟩]
     ⟨"User", "hasMany", "posts", "Post::class"⟩ (by decide)⟩
